import Mathlib

/-!
# Verification of `openfisca_core/simulation_builder.py`

A shallow embedding of the simulation builder: the population/role/membership
construction pipeline (`add_group_entity`, `iter_over_entity_members`), the
situation normalizer (`explicit_singular_entities`), the input-buffer finalizer
(`finalize_variables_init`) and the axis-expansion engine (`expand_axes`,
`add_parallel_axis`).

Conventions of the embedding:
* Python dicts become association lists (`List (κ × α)`); updating an existing
  key keeps its position, a new key is appended — matching insertion-ordered
  Python dicts.
* numpy float arrays become `List Rat`; numpy's strided slice assignment
  `a[start::step] = v` becomes `sliceAssign`, with the length-mismatch
  broadcast failure modelled as `Err.broadcastError`.
* Uninitialized numpy arrays (`np.empty`) become lists of `Option` values,
  `none` marking a slot never written.
* Python exceptions become `Except Err`; the structured
  `SituationParsingError` constructors carry their path and interpolated data.
-/

namespace OpenFisca

/-- Errors raised by the builder.  The `SituationParsingError` raises are
split by raise site, each constructor carrying the path and the data that the
source interpolates into the message. -/
inductive Err where
  /-- `check_type` failure: "Invalid type: must be of type '...'". -/
  | invalidType (path : List String) (expected : String)
  /-- `check_persons_to_allocate`: person declared in a group role but not
  declared among the persons. -/
  | unexpectedPerson (path : List String) (pid : String)
  /-- `check_persons_to_allocate`: person declared more than once in the
  group kind. -/
  | duplicatePerson (path : List String) (pid : String)
  /-- end of `add_group_entity`: persons never allocated to any instance of
  the group kind; the message lists the leftover ids. -/
  | unallocatedPersons (path : List String) (leftover : List String)
  /-- `init_variable_values`: variable does not exist (code 404). -/
  | unknownVariable (path : List String)
  /-- `init_variable_values`: variable defined for another entity. -/
  | wrongEntityVariable (path : List String)
  /-- no default period configured and a bare value was supplied. -/
  | noDefaultPeriod (path : List String)
  /-- period string rejected by the period parser. -/
  | badPeriod (path : List String)
  /-- value rejected by the variable's `check_set_value`. -/
  | badValue (path : List String)
  /-- Python `IndexError` (not a structured situation error). -/
  | indexError
  /-- Python `KeyError` (not a structured situation error). -/
  | keyError
  /-- Python `ValueError` from `list.index` (not a structured error). -/
  | valueError
  /-- numpy broadcast failure on a strided slice assignment. -/
  | broadcastError
deriving DecidableEq, Repr

/-- Python dict lookup on an association list. -/
def alook [BEq κ] (m : List (κ × α)) (k : κ) : Option α :=
  List.lookup k m

/-- Python dict assignment `m[k] = v`: update in place if the key exists
(keeping its position), otherwise append. -/
def aset [BEq κ] (m : List (κ × α)) (k : κ) (v : α) : List (κ × α) :=
  match m with
  | [] => [(k, v)]
  | (k0, v0) :: rest => if k0 == k then (k, v) :: rest else (k0, v0) :: aset rest k v

/-- A role assignment yielded by `iter_over_entity_members`: either the role
object itself (role without subroles) or one of its subroles. -/
inductive PRole where
  | whole (key : String)
  | sub (name : String)
deriving DecidableEq, Repr

/-- A role declaration of a group entity (`entity.roles` elements): key,
optional plural, subrole names (empty = no subroles) and max cardinality. -/
structure RoleDesc where
  key : String
  plural : Option String
  subroles : List String
  max : Option Nat
deriving DecidableEq, Repr

/-- `role.plural or role.key`. -/
def RoleDesc.rname (r : RoleDesc) : String :=
  r.plural.getD r.key

/-- A group entity kind: key, plural name, ordered role list. -/
structure GroupEntity where
  key : String
  plural : String
  roles : List RoleDesc
deriving DecidableEq, Repr

/-- What the builder needs of one registered variable: its owning entity's
plural name and its default value (`variable.default_array` fills with it). -/
structure VarInfo where
  entity_plural : String
  default_value : Rat
deriving DecidableEq, Repr

/-- An axis descriptor (the Python dict `{name, count, min, max, period,
index}`); `period = none` models JSON `null`, `index = none` a missing key
(read with `axis.get('index', 0)`). -/
structure Axis where
  name : String
  count : Nat
  min : Rat
  max : Rat
  period : Option String
  index : Option Nat
deriving DecidableEq, Repr

/-- The input buffer: variable name → period key → value array.  The period
key is `Option String` because the axis code can store under
`axis['period'] or self.default_period`, which may be Python `None`. -/
abbrev Buffer := List (String × List (Option String × List Rat))

/-- The mutable state of a `SimulationBuilder` (the fields the verified
operations touch). -/
structure BuilderState where
  default_period : Option String
  input_buffer : Buffer
  entity_counts : List (String × Nat)
  entity_ids : List (String × List String)
  memberships : List (String × List (Option Nat))
  roles : List (String × List (Option PRole))
  axes : List (List Axis)
  axes_entity_counts : List (String × Nat)
  axes_entity_ids : List (String × List String)
  axes_memberships : List (String × List (Option Nat))
  axes_roles : List (String × List (Option PRole))
  variable_entities : List (String × VarInfo)
deriving DecidableEq, Repr

/-- `get_count`: axis-expanded count if set, else the base count; a missing
entity raises `KeyError` (`self.entity_counts[entity_name]`). -/
def get_count (s : BuilderState) (name : String) : Except Err Nat :=
  match alook s.axes_entity_counts name with
  | some n => Except.ok n
  | none =>
    match alook s.entity_counts name with
    | some n => Except.ok n
    | none => Except.error Err.keyError

/-- `get_ids`: axis-expanded ids if set, else the base ids (`KeyError` if
neither exists). -/
def get_ids (s : BuilderState) (name : String) : Except Err (List String) :=
  match alook s.axes_entity_ids name with
  | some l => Except.ok l
  | none =>
    match alook s.entity_ids name with
    | some l => Except.ok l
    | none => Except.error Err.keyError

/-- `get_memberships`: empty list for the persons entity. -/
def get_memberships (s : BuilderState) (name : String) : List (Option Nat) :=
  match alook s.axes_memberships name with
  | some l => l
  | none => (alook s.memberships name).getD []

/-- `get_roles`: empty list for the persons entity. -/
def get_roles (s : BuilderState) (name : String) : List (Option PRole) :=
  match alook s.axes_roles name with
  | some l => l
  | none => (alook s.roles name).getD []

/-- Buffer read: the array stored under (variable, period), if any. -/
def bufGet (buf : Buffer) (v : String) (p : Option String) : Option (List Rat) :=
  match alook buf v with
  | some inner => alook inner p
  | none => none

/-- `get_input`: the buffered array for a (variable, period) pair, if any. -/
def get_input (s : BuilderState) (v : String) (p : Option String) : Option (List Rat) :=
  bufGet s.input_buffer v p

/-- Store an array in the input buffer under (variable, period). -/
def buf_set (buf : Buffer) (v : String) (p : Option String) (arr : List Rat) : Buffer :=
  match alook buf v with
  | some inner => aset buf v (aset inner p arr)
  | none => aset buf v [(p, arr)]

/-- Python list repetition `l * n`. -/
def joinRep : Nat → List α → List α
  | 0, _ => []
  | n + 1, l => l ++ joinRep n l

/-- `np.linspace a b n` over the rationals: `a + i * (b - a) / (n - 1)`.
(For `n = 1` rational division by zero returns 0, so the value is `a`,
matching numpy's single-point linspace.) -/
def linspace (a b : Rat) (n : Nat) : List Rat :=
  (List.range n).map (fun i : Nat => a + (i : Rat) * (b - a) / ((n : Rat) - 1))

/-- The value the strided slice assignment `arr[start::step] = v` writes at
absolute position `p`, if `p` lies on the slice. -/
def sliceVal (start step : Nat) (v : List Rat) (p : Nat) : Option Rat :=
  if start ≤ p ∧ (p - start) % step = 0 then v.get? ((p - start) / step) else none

/-- numpy strided slice assignment `arr[start::step] = v` (positions off the
slice keep their value). -/
def sliceAssign (arr : List Rat) (start step : Nat) (v : List Rat) : List Rat :=
  arr.mapIdx (fun p x => (sliceVal start step v p).getD x)

/-- Number of positions of `arr[start::step]` for an array of length `len` —
numpy's slice length `ceil((len - start) / step)`, which the assigned value's
length must equal. -/
def countSlice (len start step : Nat) : Nat :=
  if start < len then (len - start + step - 1) / step else 0

/-- `axis['period'] or self.default_period` (the axis's period key, the
builder's default when the axis carries none). -/
def axisPeriod (dp : Option String) (a : Axis) : Option String :=
  match a.period with
  | some x => some x
  | none => dp

/-- `add_parallel_axis`: append to the first (always present) axis group; no
validation of any kind is performed.  The builder initializes `axes = [[]]`,
so the state's axes list is never empty; an empty list would be Python
`self.axes[0]` raising `IndexError`. -/
def add_parallel_axis (s : BuilderState) (a : Axis) : Except Err BuilderState :=
  match s.axes with
  | [] => Except.error Err.indexError
  | g :: gs => Except.ok { s with axes := (g ++ [a]) :: gs }

/-- `add_perpendicular_axis`: append a new singleton axis group. -/
def add_perpendicular_axis (s : BuilderState) (a : Axis) : BuilderState :=
  { s with axes := s.axes ++ [[a]] }

/-- One buffered write of the single-group branch of `expand_axes` (lines
418-428): default-or-existing array, then the strided slice assignment of
`np.linspace(axis['min'], axis['max'], axis_count)` where `axis_count` is the
first axis's count and the stride is the original entity step size. -/
def writeAxis (step cnt n : Nat) (s : BuilderState) (a : Axis) : Except Err BuilderState := do
  let idx := a.index.getD 0
  let p : Option String := axisPeriod s.default_period a
  let vi ← match alook s.variable_entities a.name with
    | some vi => Except.ok vi
    | none => Except.error Err.keyError
  let arr := (get_input s a.name p).getD (List.replicate cnt vi.default_value)
  let vals := linspace a.min a.max n
  if countSlice arr.length idx step = vals.length then
    Except.ok { s with input_buffer := buf_set s.input_buffer a.name p (sliceAssign arr idx step vals) }
  else
    Except.error Err.broadcastError

/-- The single-group (pure parallel) branch of `expand_axes` (lines 391-428).
`first` is `parallel_axes[0]`; `group` is the whole group, `first`
included. -/
def expandSingle (s0 : BuilderState) (first : Axis) (group : List Axis) :
    Except Err BuilderState := do
  let n := first.count
  let vi ← match alook s0.variable_entities first.name with
    | some vi => Except.ok vi
    | none => Except.error Err.keyError
  let ename := vi.entity_plural
  let step ← get_count s0 ename
  let cnt := n * step
  let s1 := { s0 with axes_entity_counts := aset s0.axes_entity_counts ename cnt }
  let ids ← get_ids s1 ename
  let adjusted := List.zipWith (fun id ix => id ++ Nat.repr ix) (joinRep cnt ids) (List.range cnt)
  let s2 := { s1 with axes_entity_ids := aset s1.axes_entity_ids ename adjusted }
  let rs := get_roles s2 ename
  let s3 := { s2 with axes_roles := aset s2.axes_roles ename (joinRep n rs) }
  let ms := get_memberships s3 ename
  let adjMs :=
    List.zipWith (fun m i => m.map (fun x => x + i)) (joinRep n ms)
      ((List.range n).flatMap (fun k => List.replicate ms.length (k * step)))
  let s4 :=
    if ms.length ≠ 0 then
      { s3 with axes_memberships := aset s3.axes_memberships ename adjMs }
    else s3
  group.foldlM (writeAxis step cnt n) s4

/-- The grid dimension order of `np.meshgrid` with default `indexing='xy'`:
the first two input lengths are swapped. -/
def meshDims : List Nat → List Nat
  | c0 :: c1 :: rest => c1 :: c0 :: rest
  | l => l

/-- The dimension position of input `j` in the `meshgrid` output shape. -/
def meshPos (j : Nat) : Nat :=
  match j with
  | 0 => 1
  | 1 => 0
  | _ => j

/-- The grid coordinate of axis group `j` at flattened (row-major) position
`t` of the reshaped meshgrid output: `meshes[j].reshape(steps_count)[t]`. -/
def meshCoord (counts : List Nat) (j t : Nat) : Nat :=
  if counts.length ≤ 1 then t
  else (t / ((meshDims counts).drop (meshPos j + 1)).prod) % ((counts.get? j).getD 1)

/-- One buffered write of the multiple-groups branch (lines 460-470): the
value at flat position `t` is `min + grid[t] * (max - min) / (count - 1)`,
with `count` the group's first axis count. -/
def writeMeshAxis (counts : List Nat) (gi steps step cnt axisCount : Nat)
    (s : BuilderState) (a : Axis) : Except Err BuilderState := do
  let idx := a.index.getD 0
  let p : Option String := axisPeriod s.default_period a
  let vi ← match alook s.variable_entities a.name with
    | some vi => Except.ok vi
    | none => Except.error Err.keyError
  let arr := (get_input s a.name p).getD (List.replicate cnt vi.default_value)
  let vals := (List.range steps).map
    (fun t => a.min + (meshCoord counts gi t : Rat) * (a.max - a.min) / ((axisCount : Rat) - 1))
  if countSlice arr.length idx step = vals.length then
    Except.ok { s with input_buffer := buf_set s.input_buffer a.name p (sliceAssign arr idx step vals) }
  else
    Except.error Err.broadcastError

/-- The multiple-groups (perpendicular) branch of `expand_axes` (lines
429-470).  `parallel_axes[0]` of an empty group is a Python `IndexError`.
Roles and memberships are not rewritten in this branch (the documented
gap). -/
def expandMulti (s0 : BuilderState) : Except Err BuilderState := do
  let firsts ← s0.axes.mapM (fun g =>
    match g with
    | [] => Except.error Err.indexError
    | a :: _ => Except.ok a)
  let counts := firsts.map (fun a => a.count)
  let steps_count := counts.foldl (fun x y => x * y) 1
  let entity_sizes ← firsts.foldlM (fun m f => do
      let vi ← match alook s0.variable_entities f.name with
        | some vi => Except.ok vi
        | none => Except.error Err.keyError
      let sz ← get_count s0 vi.entity_plural
      pure (aset m vi.entity_plural sz)) ([] : List (String × Nat))
  s0.axes.enum.foldlM (fun s gg => do
      match gg.2 with
      | [] => Except.error Err.indexError
      | f :: _ => do
        let vi ← match alook s.variable_entities f.name with
          | some vi => Except.ok vi
          | none => Except.error Err.keyError
        let ename := vi.entity_plural
        let step ← match alook entity_sizes ename with
          | some sz => Except.ok sz
          | none => Except.error Err.keyError
        let cnt := steps_count * step
        let s := { s with axes_entity_counts := aset s.axes_entity_counts ename cnt }
        let ids ← get_ids s ename
        let adjusted :=
          List.zipWith (fun id ix => id ++ Nat.repr ix) (joinRep cnt ids) (List.range cnt)
        let s := { s with axes_entity_ids := aset s.axes_entity_ids ename adjusted }
        gg.2.foldlM (writeMeshAxis counts gg.1 steps_count step cnt f.count) s) s0

/-- `expand_axes` (lines 388-470): reset `axes_entity_counts`, then dispatch
on the shape of the axis list (`len(self.axes) == 1 and len(self.axes[0])`).
-/
def expand_axes (s : BuilderState) : Except Err BuilderState :=
  let s0 := { s with axes_entity_counts := [] }
  match s0.axes with
  | [a :: rest] => expandSingle s0 a (a :: rest)
  | _ => expandMulti s0

/-- The axes of a parallel group whose write targets one buffer key: those
whose variable name and effective period match. -/
def relAxes (dp : Option String) (L : List Axis) (name : String) (p : Option String) : List Axis :=
  L.filter (fun a => a.name == name && axisPeriod dp a == p)

/-- Replay the strided writes of an axis list over a base array (`step` is
the first axis's entity step size, `n` its step count). -/
def replay (step n : Nat) (L : List Axis) (base : List Rat) : List Rat :=
  L.foldl (fun arr a => sliceAssign arr (a.index.getD 0) step (linspace a.min a.max n)) base

/-- The default value of a variable per the registry (0 for an unknown
variable; only consulted at keys some axis writes, where it exists). -/
def dfltOf (ve : List (String × VarInfo)) (name : String) : Rat :=
  ((alook ve name).map VarInfo.default_value).getD 0

/-- The value the last write of an axis list covering position `i` puts
there, if any. -/
def lastW (step n i : Nat) : List Axis → Option Rat
  | [] => none
  | a :: L =>
    match lastW step n i L with
    | some v => some v
    | none => sliceVal (a.index.getD 0) step (linspace a.min a.max n) i

/-! ## Periods and the finalizer -/

/-- Modelled from the spec: the external period library (`make_period`,
`key_period_size` from `openfisca_core.periods` is not under `src/`) deals in
calendar periods compared by unit size; the spec only needs months and
years. -/
inductive Period where
  | month (y m : Nat)
  | year (y : Nat)
deriving DecidableEq, Repr

/-- Modelled from the spec: the external period parser (string → structured
period, or failure); accepts `"YYYY"` and `"YYYY-MM"` forms. -/
def parsePeriod (s : String) : Option Period :=
  match s.splitOn "-" with
  | [y] => y.toNat?.map Period.year
  | [y, m] =>
    match y.toNat?, m.toNat? with
    | some yy, some mm => some (Period.month yy mm)
    | _, _ => none
  | _ => none

/-- Two-digit month rendering. -/
def pad2 (n : Nat) : String :=
  if n < 10 then "0" ++ Nat.repr n else Nat.repr n

/-- Modelled from the spec: `str(period)` of the external period type. -/
def Period.toStr : Period → String
  | .year y => Nat.repr y
  | .month y m => Nat.repr y ++ "-" ++ pad2 m

/-- Modelled from the spec: the external `key_period_size` sort key — smaller
units (months) sort before larger ones (years). -/
def key_period_size : Period → Nat
  | .month _ _ => 1
  | .year _ => 2

/-- The observable outcome of `finalize_variables_init` on one entity: the
population data stamped onto the entity and, per buffered variable whose
holder resolves for this entity, the ordered `set_input` commit sequence. -/
structure FinalizeResult where
  count : Option Nat
  ids : Option (List String)
  members : Option (List (Option Nat) × List (Option PRole))
  commits : List (String × List (Period × List Rat))
deriving DecidableEq, Repr

/-- `make_period(period_str)` on one buffered key: a `None` key or an
unparsable string raises the period parser's `ValueError`. -/
def parseEntry (kv : Option String × List Rat) : Except Err Period :=
  match kv.1 with
  | some str =>
    match parsePeriod str with
    | some p => Except.ok p
    | none => Except.error Err.valueError
  | none => Except.error Err.valueError

/-- Processing of one buffered variable inside `finalize_variables_init`
(lines 338-349): skip it unless its holder resolves for this entity, parse
all its period keys, sort them ascending by `key_period_size` (Python's
`sorted`, a stable sort) and emit one commit per period in that order, each
re-fetching its array by the rendered period string (`buffer[str(period)]`,
a `KeyError` when the rendering differs from the original key). -/
def commitVariable (s : BuilderState) (ep : String)
    (acc : List (String × List (Period × List Rat)))
    (vb : String × List (Option String × List Rat)) :
    Except Err (List (String × List (Period × List Rat))) :=
  match alook s.variable_entities vb.1 with
  | none => pure acc
  | some vi =>
    if vi.entity_plural = ep then do
      let pers ← vb.2.mapM parseEntry
      let sorted := pers.mergeSort (fun p q => key_period_size p ≤ key_period_size q)
      let cs ← sorted.mapM (fun p =>
        match alook vb.2 (some p.toStr) with
        | some arr => Except.ok (p, arr)
        | none => Except.error Err.keyError)
      pure (acc ++ [(vb.1, cs)])
    else pure acc

def finalize_variables_init (s : BuilderState) (ep : String) : Except Err FinalizeResult := do
  let cnt ← match alook s.entity_counts ep with
    | some _ => (get_count s ep).map some
    | none => pure none
  let ids ← match alook s.entity_counts ep with
    | some _ => (get_ids s ep).map some
    | none => pure none
  let members :=
    match alook s.memberships ep with
    | some _ => some (get_memberships s ep, get_roles s ep)
    | none => none
  let commits ← s.input_buffer.foldlM (commitVariable s ep) []
  Except.ok ⟨cnt, ids, members, commits⟩

/-! ## Situation documents and the normalizer -/

/-- JSON-like situation values (Python objects flowing through the
builder). -/
inductive JVal where
  | str (s : String)
  | int (n : Int)
  | list (xs : List JVal)
  | dict (m : List (String × JVal))
  | null

/-- Python truthiness of the values above. -/
def truthy : JVal → Bool
  | .str s => s ≠ ""
  | .int n => n ≠ 0
  | .list xs => !xs.isEmpty
  | .dict m => !m.isEmpty
  | .null => false

/-- The source's `transform_to_strict_` `syntax` helper: a bare string or
integer becomes a one-element list, and integer list items become their
decimal string (ids are always compared as strings); anything else passes
through. -/
def transform_to_strict (d : JVal) : JVal :=
  let d1 :=
    match d with
    | .str s => JVal.list [.str s]
    | .int n => JVal.list [.int n]
    | x => x
  match d1 with
  | .list xs =>
    JVal.list (xs.map (fun it =>
      match it with
      | .int n => JVal.str n.repr
      | x => x))
  | x => x

/-- What `explicit_singular_entities` needs of the tax-benefit system:
the plural kind names and the singular-name → plural-name map. -/
structure TaxBenefitSystem where
  entities_plural : List String
  entities_by_singular : List (String × String)
deriving DecidableEq, Repr

/-- `explicit_singular_entities` (lines 161-187): if no key of the input is a
singular kind name, return the input unchanged; otherwise keep only the
plural-keyed entries and re-key each singular shortcut under its plural kind
with the singular name as instance id. -/
def explicit_singular_entities (tbs : TaxBenefitSystem) (input : List (String × JVal)) :
    List (String × JVal) :=
  let singular_keys := (input.map Prod.fst).filter (fun k => (alook tbs.entities_by_singular k).isSome)
  if singular_keys.isEmpty then input
  else
    let result := input.filter (fun kv => kv.1 ∈ tbs.entities_plural)
    singular_keys.foldl (fun res sing =>
      let plural := (alook tbs.entities_by_singular sing).getD ""
      aset res plural (JVal.dict [(sing, (alook input sing).getD JVal.null)])) result

/-! ## Group entity population -/

/-- The role part of one instance object: for every declared role, its
(pluralized) name mapped to the strict form of the instance's field of that
name, defaulting to an empty list (`variables_json.pop(..., [])`). -/
def rolesJson (entity : GroupEntity) (fields : List (String × JVal)) : List (String × JVal) :=
  entity.roles.map (fun r => (r.rname, transform_to_strict ((alook fields r.rname).getD (JVal.list []))))

/-- The non-role fields of one instance object (what remains for variable
ingestion after the roles are popped). -/
def nonRoleFields (entity : GroupEntity) (fields : List (String × JVal)) : List (String × JVal) :=
  fields.filter (fun kv => !(entity.roles.any (fun r => r.rname == kv.1)))

/-- The inner loop of `iter_over_entity_members` over one role's member
list, `j` being the running `legacy_role_j` enumeration index: the `j`-th
member gets subrole `j` when the role has subroles (an out-of-range `j` is a
Python `IndexError`), else the role itself. -/
def iterMembers (role : RoleDesc) : Nat → List JVal → Except Err (List (PRole × JVal))
  | _, [] => Except.ok []
  | j, x :: rest =>
    if role.subroles.isEmpty then do
      let ys ← iterMembers role (j + 1) rest
      Except.ok ((PRole.whole role.key, x) :: ys)
    else
      match role.subroles.get? j with
      | some sr => do
        let ys ← iterMembers role (j + 1) rest
        Except.ok ((PRole.sub sr, x) :: ys)
      | none => Except.error Err.indexError

/-- The outer loop of `iter_over_entity_members`: roles in declaration
order; a missing or falsy role entry yields nothing; a bare (non-list)
truthy value is wrapped in a singleton list. -/
def iterRoles (roles_json : List (String × JVal)) : List RoleDesc → Except Err (List (PRole × JVal))
  | [] => Except.ok []
  | role :: rest => do
    let contrib ←
      match alook roles_json role.rname with
      | none => Except.ok []
      | some v =>
        if truthy v then
          iterMembers role 0 (match v with | .list xs => xs | x => [x])
        else Except.ok []
    let ys ← iterRoles roles_json rest
    Except.ok (contrib ++ ys)

/-- `iter_over_entity_members` (lines 498-516): one (role, member) pair per
listed member of every truthy role entry, in role declaration order. -/
def iter_over_entity_members (entity : GroupEntity) (roles_json : List (String × JVal)) :
    Except Err (List (PRole × JVal)) :=
  iterRoles roles_json entity.roles

/-- The check loop of `add_group_entity` over one role list
(`check_persons_to_allocate`, lines 229-238 and 266-280), `k` being the
running `enumerate` index: each referenced member must be a string, declared
among the persons, and still unallocated; it is then discarded from the
working set. -/
def checkRoleList (entity_plural instance_id role_id : String)
    (persons_ids : List String) : Nat → List String → List JVal → Except Err (List String)
  | _, alloc, [] => Except.ok alloc
  | k, alloc, v :: vs =>
    match v with
    | .str pid =>
      if pid ∈ persons_ids then
        if pid ∈ alloc then
          checkRoleList entity_plural instance_id role_id persons_ids (k + 1)
            (alloc.erase pid) vs
        else Except.error (Err.duplicatePerson [entity_plural, instance_id, role_id] pid)
      else Except.error (Err.unexpectedPerson [entity_plural, instance_id, role_id] pid)
    | _ =>
      Except.error (Err.invalidType [entity_plural, instance_id, role_id, Nat.repr k] "String")

/-- The check loop over all role lists of one instance; each role entry must
be a list (`check_type(role_definition, list, ...)`). -/
def checkInstance (entity_plural instance_id : String) (persons_ids : List String) :
    List String → List (String × JVal) → Except Err (List String)
  | alloc, [] => Except.ok alloc
  | alloc, rkv :: rest =>
    match rkv.2 with
    | .list xs => do
      let alloc1 ← checkRoleList entity_plural instance_id rkv.1 persons_ids 0 alloc xs
      checkInstance entity_plural instance_id persons_ids alloc1 rest
    | _ => Except.error (Err.invalidType [entity_plural, instance_id, rkv.1] "Array")

/-- The write loop of `add_group_entity` (lines 241-244): record, at the
person's index in the person population, the instance index and the role
yielded by `iter_over_entity_members`.  `persons_ids.index(...)` on a value
that is absent (or not a string) is a Python `ValueError`. -/
def writeMembers (persons_ids : List String) (entity_index : Nat) :
    List (PRole × JVal) → List (Option Nat) → List (Option PRole) →
    Except Err (List (Option Nat) × List (Option PRole))
  | [], ms, rs => Except.ok (ms, rs)
  | y :: ys, ms, rs =>
    match y.2 with
    | .str pid =>
      match persons_ids.findIdx? (fun x => x == pid) with
      | some pindex =>
        writeMembers persons_ids entity_index ys (ms.set pindex (some entity_index))
          (rs.set pindex (some y.1))
      | none => Except.error Err.valueError
    | _ => Except.error Err.valueError

/-- `add_variable_value` (lines 308-327): a `null` value is a no-op;
otherwise fetch or create the buffered array for (variable, period) sized to
the entity's current count, coerce the value and write it at the instance
index.  (`check_set_value` is external; modelled from the spec as the value
coercion function — integer JSON values become rationals, anything else is a
coercion failure.) -/
def add_variable_value (s : BuilderState) (entity_plural : String) (vi : VarInfo)
    (vname : String) (instance_index : Nat) (instance_id : String)
    (period_str : String) (value : JVal) : Except Err BuilderState := do
  match value with
  | .null => Except.ok s
  | _ => do
    let arr ← match get_input s vname (some period_str) with
      | some a => Except.ok a
      | none => (get_count s entity_plural).map (fun n => List.replicate n vi.default_value)
    let v ← match value with
      | .int n => Except.ok ((n : Rat))
      | _ => Except.error (Err.badValue [entity_plural, instance_id, vname, period_str])
    if instance_index < arr.length then
      Except.ok { s with
        input_buffer := buf_set s.input_buffer vname (some period_str) (arr.set instance_index v) }
    else Except.error Err.indexError

/-- `init_variable_values` (lines 282-306): for every field, resolve the
variable (unknown → 404, wrong entity → structured error), find the instance
index, wrap a bare value under the default period (an error when none is
configured), then parse each period key and buffer the value. -/
def init_variable_values (s0 : BuilderState) (entity_plural : String)
    (fields : List (String × JVal)) (instance_id : String) : Except Err BuilderState :=
  fields.foldlM (fun s fv => do
    let (vname, vvalues) := fv
    let path := [entity_plural, instance_id, vname]
    let vi ← match alook s.variable_entities vname with
      | none => Except.error (Err.unknownVariable path)
      | some vi =>
        if vi.entity_plural = entity_plural then Except.ok vi
        else Except.error (Err.wrongEntityVariable path)
    let ids ← get_ids s entity_plural
    let instance_index ← match ids.findIdx? (fun x => x == instance_id) with
      | some i => Except.ok i
      | none => Except.error Err.valueError
    let pairs ← match vvalues with
      | .dict m => Except.ok m
      | v =>
        match s.default_period with
        | some dp => Except.ok [(dp, v)]
        | none => Except.error (Err.noDefaultPeriod path)
    pairs.foldlM (fun s pv =>
      match parsePeriod pv.1 with
      | none => Except.error (Err.badPeriod path)
      | some _ => add_variable_value s entity_plural vi vname instance_index instance_id pv.1 pv.2)
      s) s0

/-- Processing of one instance inside `add_group_entity` (lines 219-246):
type-check the instance object, split role fields from variable fields, run
the allocation checks, then write memberships/roles for every yielded member
and ingest the remaining variable fields. -/
def processInstance (persons_ids : List String) (entity : GroupEntity)
    (entity_ids : List String)
    (st : List String × List (Option Nat) × List (Option PRole) × BuilderState)
    (inst : String × JVal) :
    Except Err (List String × List (Option Nat) × List (Option PRole) × BuilderState) := do
  let (instance_id, instance_object) := inst
  let (alloc, ms, rs, s) := st
  let fields ← match instance_object with
    | .dict m => Except.ok m
    | _ => Except.error (Err.invalidType [entity.plural, instance_id] "Object")
  let roles_json := rolesJson entity fields
  let variables_json := nonRoleFields entity fields
  let alloc1 ← checkInstance entity.plural instance_id persons_ids alloc roles_json
  let entity_index ← match entity_ids.findIdx? (fun x => x == instance_id) with
    | some i => Except.ok i
    | none => Except.error Err.valueError
  let ys ← iter_over_entity_members entity roles_json
  let mr ← writeMembers persons_ids entity_index ys ms rs
  let s1 ← init_variable_values s entity.plural variables_json instance_id
  Except.ok (alloc1, mr.1, mr.2, s1)

/-- `add_group_entity` (lines 205-256): record ids and count for the group
kind, seed the working set of unallocated persons and the uninitialized
membership/role arrays (`np.empty`, sized to the person count), process every
instance, store the arrays, and error out when unallocated persons remain —
with the group kind's plural as the error path and the leftover ids in the
message. -/
def add_group_entity (persons_ids : List String) (entity : GroupEntity)
    (instances_json : JVal) (s : BuilderState) : Except Err BuilderState := do
  let instances ← match instances_json with
    | .dict m => Except.ok m
    | _ => Except.error (Err.invalidType [entity.plural] "Object")
  let entity_ids := instances.map Prod.fst
  let s := { s with
    entity_ids := aset s.entity_ids entity.plural entity_ids,
    entity_counts := aset s.entity_counts entity.plural entity_ids.length }
  let persons_count := persons_ids.length
  let alloc : List String := persons_ids
  let ms : List (Option Nat) := List.replicate persons_count none
  let rs : List (Option PRole) := List.replicate persons_count none
  let res ← instances.foldlM (processInstance persons_ids entity entity_ids) (alloc, ms, rs, s)
  let s1 := { res.2.2.2 with
    roles := aset res.2.2.2.roles entity.plural res.2.2.1,
    memberships := aset res.2.2.2.memberships entity.plural res.2.1 }
  if res.1.isEmpty then Except.ok s1
  else Except.error (Err.unallocatedPersons [entity.plural] res.1)

/-- The person ids referenced by one role value (only string items count;
under a successful run every item is a string). -/
def pidsOf (v : JVal) : List String :=
  match v with
  | .list xs => xs.filterMap (fun x => match x with | .str s => some s | _ => none)
  | _ => []

/-- All person ids referenced by the role lists of one instance. -/
def instanceRefs (entity : GroupEntity) (inst : String × JVal) : List String :=
  match inst.2 with
  | .dict fields => (rolesJson entity fields).flatMap (fun kv => pidsOf kv.2)
  | _ => []

/-- All person ids referenced across all instances of a group kind. -/
def groupRefs (entity : GroupEntity) (instances : List (String × JVal)) : List String :=
  instances.flatMap (instanceRefs entity)

/-! ## Concrete builder states used by the individual claims -/

/-- A two-role household kind (parents/children). -/
def entityC1 : GroupEntity :=
  ⟨"household", "households",
   [⟨"parent", some "parents", [], none⟩, ⟨"child", some "children", [], none⟩]⟩

/-- Person population `a`, `b`, `c` for the allocation claim. -/
def personsC1 : List String := ["a", "b", "c"]

/-- Two households exhausting the population: `a` parent and `b` child of
`h1`, `c` parent of `h2`. -/
def instancesC1 : List (String × JVal) :=
  [("h1", JVal.dict [("parents", JVal.list [JVal.str "a"]),
                     ("children", JVal.list [JVal.str "b"])]),
   ("h2", JVal.dict [("parents", JVal.list [JVal.str "c"])])]

/-- An otherwise empty builder state for the group-allocation claims. -/
def stateC1 : BuilderState where
  default_period := none
  input_buffer := []
  entity_counts := []
  entity_ids := []
  memberships := []
  roles := []
  axes := [[]]
  axes_entity_counts := []
  axes_entity_ids := []
  axes_memberships := []
  axes_roles := []
  variable_entities := []

/-- Person population for the unallocated-person claim. -/
def personsC7 : List String := ["a", "b"]

/-- `b` is never referenced: one household whose only role list names `a`. -/
def instancesC7 : List (String × JVal) :=
  [("h1", JVal.dict [("parents", JVal.list [JVal.str "a"])])]

/-- One household naming `a` twice in the same role; `b` is never
referenced by any role list. -/
def instancesC7dup : List (String × JVal) :=
  [("h1", JVal.dict [("parents", JVal.list [JVal.str "a", JVal.str "a"])])]

/-- The state `add_group_entity` produces on `instancesC1` (evaluated). -/
def sfC1 : BuilderState where
  default_period := none
  input_buffer := []
  entity_counts := [("households", 2)]
  entity_ids := [("households", ["h1", "h2"])]
  memberships := [("households", [some 0, some 0, some 1])]
  roles := [("households", [some (PRole.whole "parent"), some (PRole.whole "child"), some (PRole.whole "parent")])]
  axes := [[]]
  axes_entity_counts := []
  axes_entity_ids := []
  axes_memberships := []
  axes_roles := []
  variable_entities := []

/-- The instance-fold result on `instancesC7` (evaluated): `b` stays in the
working set of persons to allocate. -/
def resC7 : List String × List (Option Nat) × List (Option PRole) × BuilderState :=
  (["b"], [some 0, none], [some (PRole.whole "parent"), none],
   { default_period := none
     input_buffer := []
     entity_counts := [("households", 1)]
     entity_ids := [("households", ["h1"])]
     memberships := []
     roles := []
     axes := [[]]
     axes_entity_counts := []
     axes_entity_ids := []
     axes_memberships := []
     axes_roles := []
     variable_entities := [] })

/-- A builder state right before `expand_axes`: one person `p`, one parallel
axis sweeping `salary` with 3 steps from 0 to 100 at slot 0. -/
def stateC8 : BuilderState where
  default_period := none
  input_buffer := []
  entity_counts := [("persons", 1)]
  entity_ids := [("persons", ["p"])]
  memberships := []
  roles := []
  axes := [[⟨"salary", 3, 0, 100, some "2024", some 0⟩]]
  axes_entity_counts := []
  axes_entity_ids := []
  axes_memberships := []
  axes_roles := []
  variable_entities := [("salary", ⟨"persons", 0⟩)]

/-- The state the first `expand_axes` call produces from `stateC8`
(evaluated). -/
def stateC6w1 : BuilderState where
  default_period := none
  input_buffer := [("salary", [(some "2024", [0, 50, 100])])]
  entity_counts := [("persons", 1)]
  entity_ids := [("persons", ["p"])]
  memberships := []
  roles := []
  axes := [[⟨"salary", 3, 0, 100, some "2024", some 0⟩]]
  axes_entity_counts := [("persons", 3)]
  axes_entity_ids := [("persons", ["p0", "p1", "p2"])]
  axes_memberships := []
  axes_roles := [("persons", [])]
  variable_entities := [("salary", ⟨"persons", 0⟩)]

/-- The state the second `expand_axes` call produces (evaluated): only the
axis-expanded ids differ from `stateC6w1`. -/
def stateC6w2 : BuilderState where
  default_period := none
  input_buffer := [("salary", [(some "2024", [0, 50, 100])])]
  entity_counts := [("persons", 1)]
  entity_ids := [("persons", ["p"])]
  memberships := []
  roles := []
  axes := [[⟨"salary", 3, 0, 100, some "2024", some 0⟩]]
  axes_entity_counts := [("persons", 3)]
  axes_entity_ids := [("persons", ["p00", "p11", "p22"])]
  axes_memberships := []
  axes_roles := [("persons", [])]
  variable_entities := [("salary", ⟨"persons", 0⟩)]

/-- The builder state `build_from_entities` reaches when the input's `axes`
value is `[[]]`: the initial `axes = [[]]` is left untouched by the axis
loop, and `expand_axes` is still called because `[[]]` is truthy. -/
def stateC9 : BuilderState where
  default_period := none
  input_buffer := []
  entity_counts := [("persons", 1)]
  entity_ids := [("persons", ["p"])]
  memberships := []
  roles := []
  axes := [[]]
  axes_entity_counts := []
  axes_entity_ids := []
  axes_memberships := []
  axes_roles := []
  variable_entities := []

/-- Two perpendicular axis groups of counts 2 and 3 over two entity kinds of
base size 1. -/
def stateC4 : BuilderState where
  default_period := none
  input_buffer := []
  entity_counts := [("foos", 1), ("bars", 1)]
  entity_ids := [("foos", ["f"]), ("bars", ["b"])]
  memberships := []
  roles := []
  axes := [[⟨"a", 2, 0, 10, some "2024", some 0⟩], [⟨"b", 3, 0, 20, some "2024", some 0⟩]]
  axes_entity_counts := []
  axes_entity_ids := []
  axes_memberships := []
  axes_roles := []
  variable_entities := [("a", ⟨"foos", 0⟩), ("b", ⟨"bars", 0⟩)]

/-- An id sequence with ids of unequal length (`"a"` is a prefix of `"a1"`),
base size 3, swept by a 5-step axis: flattened positions 2 and 12 both
produce the id `"a12"`. -/
def stateC2cex : BuilderState where
  default_period := none
  input_buffer := []
  entity_counts := [("persons", 3)]
  entity_ids := [("persons", ["a", "x", "a1"])]
  memberships := []
  roles := []
  axes := [[⟨"salary", 5, 0, 100, some "2024", some 0⟩]]
  axes_entity_counts := []
  axes_entity_ids := []
  axes_memberships := []
  axes_roles := []
  variable_entities := [("salary", ⟨"persons", 0⟩)]

/-- A two-step parallel axis over a two-person population with equal-length
ids. -/
def axisC2w : Axis := ⟨"salary", 2, 0, 100, some "2024", some 0⟩

/-- Base state for the C2 witness. -/
def stateC2w : BuilderState where
  default_period := none
  input_buffer := []
  entity_counts := [("persons", 2)]
  entity_ids := [("persons", ["aa", "bb"])]
  memberships := []
  roles := []
  axes := [[axisC2w]]
  axes_entity_counts := []
  axes_entity_ids := []
  axes_memberships := []
  axes_roles := []
  variable_entities := [("salary", ⟨"persons", 0⟩)]

/-- The state `expand_axes` produces from `stateC2w`. -/
def stateC2wExpanded : BuilderState :=
  { stateC2w with
    input_buffer := [("salary", [(some "2024", [0, 0, 100, 0])])]
    axes_entity_counts := [("persons", 4)]
    axes_entity_ids := [("persons", ["aa0", "bb1", "aa2", "bb3"])]
    axes_roles := [("persons", [])] }

/-- A builder state whose buffer holds, for `salary`, a year entry (listed
first) and a month entry: finalization must commit the month first. -/
def stateC3w : BuilderState where
  default_period := none
  input_buffer := [("salary", [(some "2024", [1]), (some "2024-01", [2])])]
  entity_counts := [("persons", 1)]
  entity_ids := [("persons", ["p"])]
  memberships := []
  roles := []
  axes := [[]]
  axes_entity_counts := []
  axes_entity_ids := []
  axes_memberships := []
  axes_roles := []
  variable_entities := [("salary", ⟨"persons", 0⟩)]

/-- The finalization outcome on `stateC3w`: the 2024-01 commit precedes the
2024 commit although the buffer listed the year first. -/
def resC3w : FinalizeResult :=
  ⟨some 1, some ["p"], none,
    [("salary", [(Period.month 2024 1, [2]), (Period.year 2024, [1])])]⟩

/-- A 3-step axis on `salary` (persons) at slot 0. -/
def axisC10a : Axis := ⟨"salary", 3, 0, 100, some "2024", some 0⟩

/-- A deliberately mismatched parallel axis: 7 steps, another entity
(`households` via `rent`), slot 1. -/
def axisC10b : Axis := ⟨"rent", 7, 0, 60, some "2025", some 1⟩

/-- State before `add_parallel_axis` of the mismatched axis. -/
def stateC10pre : BuilderState where
  default_period := none
  input_buffer := []
  entity_counts := [("persons", 2), ("households", 1)]
  entity_ids := [("persons", ["p1", "p2"]), ("households", ["h"])]
  memberships := []
  roles := []
  axes := [[axisC10a]]
  axes_entity_counts := []
  axes_entity_ids := []
  axes_memberships := []
  axes_roles := []
  variable_entities := [("salary", ⟨"persons", 0⟩), ("rent", ⟨"households", 0⟩)]

/-- State with the two mismatched parallel axes in one group. -/
def stateC10w : BuilderState := { stateC10pre with axes := [[axisC10a, axisC10b]] }

/-- The state `expand_axes` produces from `stateC10w`: no error, and both
buffered arrays hold a 3-point spread (the first axis's count). -/
def stateC10wExpanded : BuilderState :=
  { stateC10w with
    input_buffer := [("salary", [(some "2024", [0, 0, 50, 0, 100, 0])]),
      ("rent", [(some "2025", [0, 0, 0, 30, 0, 60])])]
    axes_entity_counts := [("persons", 6)]
    axes_entity_ids := [("persons", ["p10", "p21", "p12", "p23", "p14", "p25"])]
    axes_roles := [("persons", [])] }

/-- The entity registry of the examples: persons and households. -/
def tbsC5 : TaxBenefitSystem where
  entities_plural := ["persons", "households"]
  entities_by_singular := [("person", "persons"), ("household", "households")]

end OpenFisca

namespace OpenFisca

/-! ## Helper lemmas on the dictionary and list models -/

theorem alook_aset_self [BEq κ] [LawfulBEq κ] (m : List (κ × α)) (k : κ) (v : α) :
    alook (aset m k v) k = some v := by
  induction m with
  | nil => simp [aset, alook, List.lookup]
  | cons kv rest ih =>
    obtain ⟨k0, v0⟩ := kv
    by_cases h : k0 == k
    · simp [aset, alook, List.lookup, h]
    · have hne : k0 ≠ k := by simpa [beq_iff_eq] using h
      have h' : (k == k0) = false := beq_eq_false_iff_ne.mpr (fun e => hne e.symm)
      simp only [aset, h, Bool.false_eq_true, if_false]
      show List.lookup k ((k0, v0) :: aset rest k v) = some v
      simp only [List.lookup, h']
      exact ih

theorem alook_aset_ne [BEq κ] [LawfulBEq κ] (m : List (κ × α)) (k k' : κ) (v : α)
    (h : ¬ (k' == k)) : alook (aset m k v) k' = alook m k' := by
  induction m with
  | nil => simp [aset, alook, List.lookup, h]
  | cons kv rest ih =>
    obtain ⟨k0, v0⟩ := kv
    by_cases h0 : k0 == k
    · have hk0 : k0 = k := by simpa [beq_iff_eq] using h0
      simp [aset, alook, List.lookup, h0, hk0, h]
    · simp only [aset, h0, Bool.false_eq_true, if_false]
      by_cases h1 : k' == k0
      · have : (k' == k0) = true := h1
        simp [alook, List.lookup, this]
      · have h1' : (k' == k0) = false := by simpa using h1
        simpa [alook, List.lookup, h1'] using ih

theorem alook_mem [BEq κ] [LawfulBEq κ] {m : List (κ × α)} {k : κ} {v : α}
    (h : alook m k = some v) : (k, v) ∈ m := by
  induction m with
  | nil => simp [alook, List.lookup] at h
  | cons kv rest ih =>
    obtain ⟨k0, v0⟩ := kv
    by_cases h0 : k == k0
    · have hk : k = k0 := by simpa [beq_iff_eq] using h0
      simp [alook, List.lookup, h0] at h
      simp [hk, h]
    · have h0' : (k == k0) = false := by simpa using h0
      simp only [alook, List.lookup, h0'] at h
      exact List.mem_cons_of_mem _ (ih h)

theorem mem_keys_aset [BEq κ] [LawfulBEq κ] (m : List (κ × α)) (k : κ) (v : α) :
    ∀ k' ∈ (aset m k v).map Prod.fst, k' ∈ m.map Prod.fst ∨ k' = k := by
  induction m with
  | nil => simp [aset]
  | cons kv rest ih =>
    obtain ⟨k0, v0⟩ := kv
    by_cases h0 : k0 == k
    · intro k' hk'
      rw [show aset ((k0, v0) :: rest) k v = (k, v) :: rest by simp [aset, h0]] at hk'
      simp only [List.map_cons, List.mem_cons] at hk'
      rcases hk' with h | h
      · right; exact h
      · left
        simp only [List.map_cons, List.mem_cons]
        right; exact h
    · intro k' hk'
      rw [show aset ((k0, v0) :: rest) k v = (k0, v0) :: aset rest k v by
        simp [aset, h0]] at hk'
      simp only [List.map_cons, List.mem_cons] at hk'
      rcases hk' with h | h
      · left; simp [h]
      · rcases ih k' h with h' | h'
        · left
          simp only [List.map_cons, List.mem_cons]
          right; exact h'
        · right; exact h'

theorem joinRep_length (n : Nat) (l : List α) : (joinRep n l).length = n * l.length := by
  induction n with
  | zero => simp [joinRep]
  | succ m ih => simp [joinRep, ih, Nat.succ_mul]; omega

theorem joinRep_getElem? (n : Nat) (l : List α) (i : Nat) (h : i < n * l.length) :
    (joinRep n l)[i]? = l[i % l.length]? := by
  induction n generalizing i with
  | zero => omega
  | succ m ih =>
    have hlen : (m + 1) * l.length = m * l.length + l.length := by ring
    rw [joinRep, List.getElem?_append]
    by_cases hi : i < l.length
    · rw [if_pos hi, Nat.mod_eq_of_lt hi]
    · have hge : l.length ≤ i := Nat.le_of_not_lt hi
      rw [if_neg hi, ih (i - l.length) (by omega), Nat.mod_eq_sub_mod hge]

/-- Splitting a string concatenation whose left parts have equal length. -/
theorem string_append_cancel {a b c d : String} (hl : a.length = c.length)
    (h : a ++ b = c ++ d) : a = c ∧ b = d := by
  have hd := congrArg String.data h
  rw [String.data_append, String.data_append] at hd
  have hlen : a.data.length = c.data.length := hl
  obtain ⟨h1, h2⟩ := List.append_inj hd hlen
  exact ⟨String.ext h1, String.ext h2⟩

/-! ## Injectivity of the decimal rendering `Nat.repr` -/

theorem digitChar_injOn : ∀ a < 10, ∀ b < 10, Nat.digitChar a = Nat.digitChar b → a = b := by
  decide

theorem toDigitsCore_eq_digits (b : Nat) (hb : 1 < b) :
    ∀ n, 0 < n → ∀ (f : Nat) (ds : List Char), n < b ^ f →
      Nat.toDigitsCore b f n ds = ((Nat.digits b n).map Nat.digitChar).reverse ++ ds := by
  intro n
  induction n using Nat.strong_induction_on with
  | _ n ih =>
    intro hn f ds hf
    match f with
    | 0 => simp at hf; omega
    | f + 1 =>
      rw [Nat.digits_def' hb hn]
      by_cases hq : n / b = 0
      · have : Nat.digits b (n / b) = [] := by rw [hq]; simp
        simp [Nat.toDigitsCore, hq, this]
      · have hqpos : 0 < n / b := Nat.pos_of_ne_zero hq
        have hqlt : n / b < n := Nat.div_lt_self hn hb
        have hble : n / b < b ^ f := by
          rw [Nat.div_lt_iff_lt_mul (by omega)]
          calc n < b ^ (f + 1) := hf
            _ = b ^ f * b := by rw [Nat.pow_succ]
        rw [show Nat.toDigitsCore b (f + 1) n ds
            = Nat.toDigitsCore b f (n / b) (Nat.digitChar (n % b) :: ds) by
          simp [Nat.toDigitsCore, hq]]
        rw [ih (n / b) hqlt hqpos f (Nat.digitChar (n % b) :: ds) hble]
        simp

theorem repr_eq_digits (n : Nat) (hn : 0 < n) :
    Nat.repr n = (((Nat.digits 10 n).map Nat.digitChar).reverse).asString := by
  have hpow : n < 10 ^ (n + 1) := by
    calc n < 2 ^ n := Nat.lt_two_pow n
      _ ≤ 10 ^ n := Nat.pow_le_pow_left (by omega) n
      _ ≤ 10 ^ (n + 1) := Nat.pow_le_pow_right (by omega) (Nat.le_succ n)
  rw [Nat.repr, Nat.toDigits, toDigitsCore_eq_digits 10 (by omega) n hn (n + 1) [] hpow]
  simp

theorem map_digitChar_inj : ∀ l1 l2 : List Nat, (∀ x ∈ l1, x < 10) → (∀ x ∈ l2, x < 10) →
    l1.map Nat.digitChar = l2.map Nat.digitChar → l1 = l2 := by
  intro l1
  induction l1 with
  | nil => intro l2 _ _ h; cases l2 <;> simp_all
  | cons a l1 ih =>
    intro l2 h1 h2 h
    cases l2 with
    | nil => simp at h
    | cons b l2 =>
      simp only [List.map_cons, List.cons.injEq] at h
      have hab : a = b :=
        digitChar_injOn a (h1 a (by simp)) b (h2 b (by simp)) h.1
      have : l1 = l2 := ih l2 (fun x hx => h1 x (by simp [hx])) (fun x hx => h2 x (by simp [hx])) h.2
      simp [hab, this]

theorem Nat_repr_injective : Function.Injective Nat.repr := by
  intro m n h
  have key : ∀ a b : Nat, 0 < a → 0 < b → Nat.repr a = Nat.repr b → a = b := by
    intro a b ha hb hab
    rw [repr_eq_digits a ha, repr_eq_digits b hb] at hab
    have hdata := congrArg String.data hab
    simp only [List.asString] at hdata
    have hrev : ((Nat.digits 10 a).map Nat.digitChar).reverse
        = ((Nat.digits 10 b).map Nat.digitChar).reverse := hdata
    have hmap : (Nat.digits 10 a).map Nat.digitChar = (Nat.digits 10 b).map Nat.digitChar :=
      List.reverse_injective hrev
    have hdig : Nat.digits 10 a = Nat.digits 10 b :=
      map_digitChar_inj _ _ (fun x hx => Nat.digits_lt_base (by omega) hx)
        (fun x hx => Nat.digits_lt_base (by omega) hx) hmap
    have := congrArg (Nat.ofDigits 10) hdig
    rwa [Nat.ofDigits_digits, Nat.ofDigits_digits] at this
  have zeroCase : ∀ a : Nat, 0 < a → Nat.repr 0 ≠ Nat.repr a := by
    intro a ha hz
    rw [repr_eq_digits a ha] at hz
    have hdata := congrArg String.data hz
    simp only [List.asString] at hdata
    have h0 : Nat.repr 0 = "0" := rfl
    rw [h0] at hdata
    have hrev : ((Nat.digits 10 a).map Nat.digitChar).reverse = ['0'] := hdata.symm
    have hmap : (Nat.digits 10 a).map Nat.digitChar = ['0'] := by
      have := congrArg List.reverse hrev
      simpa using this
    have hdig : Nat.digits 10 a = [0] :=
      map_digitChar_inj _ _ (fun x hx => Nat.digits_lt_base (by omega) hx)
        (by intro x hx; simp at hx; omega)
        (by rw [hmap]; rfl)
    have := congrArg (Nat.ofDigits 10) hdig
    rw [Nat.ofDigits_digits] at this
    simp [Nat.ofDigits] at this
    omega
  rcases Nat.eq_zero_or_pos m with hm | hm
  · rcases Nat.eq_zero_or_pos n with hn | hn
    · omega
    · exact absurd (hm ▸ h) (zeroCase n hn)
  · rcases Nat.eq_zero_or_pos n with hn | hn
    · exact absurd (hn ▸ h.symm) (zeroCase m hm)
    · exact key m n hm hn h

/-! ## Theorems -/

/-- **C8.** For a single parallel axis with count 3, min 0, max 100, slot
index 0, over a base population of size 1 for its entity kind, `expand_axes`
yields population size 3 for that kind and the buffered array for the axis's
variable and period is `[0, 50, 100]` (the axis's strided slot covers the
whole array since the step size is 1). -/
theorem expand_axes_parallel_three_points :
    (expand_axes stateC8).map
        (fun s => (get_count s "persons", get_input s "salary" (some "2024")))
      = Except.ok (Except.ok 3, some ([0, 50, 100] : List Rat)) := by
  with_unfolding_all rfl

/-- **C9.** With no axis added (`axes = [[]]`, as reachable from
`build_from_entities` with an `'axes'` value of `[[]]`), `expand_axes` takes
the multiple-groups branch, evaluates `parallel_axes[0]` on an empty list and
raises a bare `IndexError`, not a structured situation error. -/
theorem expand_axes_empty_axes_index_error (s : BuilderState) (h : s.axes = [[]]) :
    expand_axes s = Except.error Err.indexError := by
  have h0 : ({ s with axes_entity_counts := [] } : BuilderState).axes = [[]] := h
  unfold expand_axes
  rw [h0]
  rfl

/-- Witness for C9 at a concrete state. -/
theorem expand_axes_empty_axes_index_error_witness :
    stateC9.axes = [[]] ∧ expand_axes stateC9 = Except.error Err.indexError :=
  ⟨rfl, expand_axes_empty_axes_index_error stateC9 rfl⟩

/-- Keys produced by the re-keying fold of `explicit_singular_entities` stay
inside the plural kind names, provided the accumulator's keys do and every
folded key is a known singular name. -/
theorem explicit_fold_keys (tbs : TaxBenefitSystem) (input : List (String × JVal))
    (hcons : ∀ kv ∈ tbs.entities_by_singular, kv.2 ∈ tbs.entities_plural) :
    ∀ sl : List String, (∀ x ∈ sl, (alook tbs.entities_by_singular x).isSome) →
    ∀ acc : List (String × JVal), (∀ k ∈ acc.map Prod.fst, k ∈ tbs.entities_plural) →
    ∀ k ∈ (sl.foldl (fun res sing =>
        aset res ((alook tbs.entities_by_singular sing).getD "")
          (JVal.dict [(sing, (alook input sing).getD JVal.null)])) acc).map Prod.fst,
      k ∈ tbs.entities_plural := by
  intro sl
  induction sl with
  | nil => intro _ acc hacc k hk; exact hacc k hk
  | cons s sl ih =>
    intro hsl acc hacc
    simp only [List.foldl_cons]
    refine ih (fun x hx => hsl x (by simp [hx])) _ ?_
    intro k hk
    rcases mem_keys_aset acc ((alook tbs.entities_by_singular s).getD "") _ k hk with h | h
    · exact hacc k h
    · obtain ⟨ps, hps⟩ := Option.isSome_iff_exists.mp (hsl s (by simp))
      rw [h, hps]
      exact hcons (s, ps) (alook_mem hps)

/-- **C5 (amended).** When the input contains at least one singular-kind key
(so the filtering branch of `explicit_singular_entities` runs) and every
singular kind maps to a known plural kind, every top-level key of the result
is a known plural kind name — non-kind keys are dropped.  (As stated the
claim is false: with no singular key present the input is returned
unchanged, unknown keys included — see the counterexample.) -/
theorem explicit_singular_entities_amended (tbs : TaxBenefitSystem)
    (input : List (String × JVal))
    (hcons : ∀ kv ∈ tbs.entities_by_singular, kv.2 ∈ tbs.entities_plural)
    (hsing : ∃ k, k ∈ input.map Prod.fst ∧ (alook tbs.entities_by_singular k).isSome) :
    ∀ k ∈ (explicit_singular_entities tbs input).map Prod.fst, k ∈ tbs.entities_plural := by
  unfold explicit_singular_entities
  obtain ⟨k0, hk0mem, hk0some⟩ := hsing
  have hmemf : k0 ∈ (input.map Prod.fst).filter
      (fun k => (alook tbs.entities_by_singular k).isSome) :=
    List.mem_filter.mpr ⟨hk0mem, by simpa using hk0some⟩
  have hne : ¬ ((input.map Prod.fst).filter
      (fun k => (alook tbs.entities_by_singular k).isSome)).isEmpty = true := by
    intro hemp
    rw [List.isEmpty_iff] at hemp
    rw [hemp] at hmemf
    simp at hmemf
  rw [if_neg hne]
  refine explicit_fold_keys tbs input hcons _ ?_ _ ?_
  · intro x hx
    exact (List.mem_filter.mp hx).2
  · intro k hk
    obtain ⟨kv, hkv, rfl⟩ := List.mem_map.mp hk
    have := (List.mem_filter.mp hkv).2
    simpa using this

/-- Witness for the amended C5 at a concrete situation with a singular
shortcut and an unknown key: the unknown key is dropped and only the plural
kind remains. -/
theorem explicit_singular_entities_amended_witness :
    "households" ∈ tbsC5.entities_plural
      ∧ (explicit_singular_entities tbsC5
          [("household", JVal.dict []), ("foo", JVal.null)]).map Prod.fst = ["households"] :=
  ⟨explicit_singular_entities_amended tbsC5 [("household", JVal.dict []), ("foo", JVal.null)]
      (by decide) ⟨"household", by decide, by decide⟩ "households" (by decide),
    by decide⟩

/-- **C5 (counterexample).** On a document with no singular-kind key,
`explicit_singular_entities` returns the input unchanged: the key `foo`,
which is neither a singular nor a plural kind name, is kept — refuting the
claim that every such key is dropped for every input document. -/
theorem explicit_singular_entities_unknown_key_kept :
    (explicit_singular_entities tbsC5 [("foo", JVal.null)]).map Prod.fst = ["foo"]
      ∧ "foo" ∉ tbsC5.entities_plural
      ∧ (alook tbsC5.entities_by_singular "foo").isNone := by
  refine ⟨?_, by decide, by decide⟩
  decide

/-- `Except.ok` is left identity for bind. -/
@[simp] theorem ok_bind {ε α β : Type} (a : α) (f : α → Except ε β) :
    (Except.ok a >>= f) = f a := rfl

/-- `Except.error` short-circuits bind. -/
@[simp] theorem error_bind {ε α β : Type} (e : ε) (f : α → Except ε β) :
    ((Except.error e : Except ε α) >>= f) = Except.error e := rfl

/-- Destructuring a successful `Except` bind. -/
theorem except_bind_ok {ε α β : Type} {x : Except ε α} {f : α → Except ε β} {b : β}
    (h : (x >>= f) = Except.ok b) : ∃ a, x = Except.ok a ∧ f a = Except.ok b := by
  cases x with
  | ok a => exact ⟨a, rfl, h⟩
  | error e => simp at h

/-- A successful buffered axis write only changes the input buffer. -/
theorem writeAxis_ok {step cnt n : Nat} {t t' : BuilderState} {a : Axis}
    (h : writeAxis step cnt n t a = Except.ok t') :
    ∃ buf, t' = { t with input_buffer := buf } := by
  unfold writeAxis at h
  cases hvi : alook t.variable_entities a.name with
  | none =>
    rw [hvi] at h
    exact absurd h (by simp)
  | some vi =>
    rw [hvi] at h
    simp only [ok_bind] at h
    by_cases hc : countSlice ((get_input t a.name (axisPeriod t.default_period a)).getD
        (List.replicate cnt vi.default_value)).length
        (a.index.getD 0) step = (linspace a.min a.max n).length
    · rw [if_pos hc] at h
      exact ⟨_, (Except.ok.inj h).symm⟩
    · rw [if_neg hc] at h
      exact absurd h (by simp)

/-- A successful fold of buffered axis writes only changes the input
buffer. -/
theorem foldWrite_ok {step cnt n : Nat} :
    ∀ (group : List Axis) (t t' : BuilderState),
      group.foldlM (writeAxis step cnt n) t = Except.ok t' →
      ∃ buf, t' = { t with input_buffer := buf } := by
  intro group
  induction group with
  | nil =>
    intro t t' h
    rw [List.foldlM_nil] at h
    exact ⟨t.input_buffer, (Except.ok.inj h).symm⟩
  | cons a group ih =>
    intro t t' h
    rw [List.foldlM_cons] at h
    obtain ⟨t1, h1, h2⟩ := except_bind_ok h
    obtain ⟨b1, e1⟩ := writeAxis_ok h1
    obtain ⟨b2, e2⟩ := ih t1 t' h2
    subst e1
    exact ⟨b2, e2⟩

/-- The single-group branch stores, for the axis entity, the id list built by
repeating the original ids `count * step` times, zipping with the flat
position range and suffixing. -/
theorem expandSingle_ids {s0 sf : BuilderState} {first : Axis} {group : List Axis}
    {vi : VarInfo} {S : Nat} {ids : List String}
    (hvi : alook s0.variable_entities first.name = some vi)
    (hS : get_count s0 vi.entity_plural = Except.ok S)
    (hids : get_ids s0 vi.entity_plural = Except.ok ids)
    (hok : expandSingle s0 first group = Except.ok sf) :
    sf.axes_entity_ids = aset s0.axes_entity_ids vi.entity_plural
      (List.zipWith (fun id ix => id ++ Nat.repr ix) (joinRep (first.count * S) ids)
        (List.range (first.count * S))) := by
  unfold expandSingle at hok
  rw [hvi] at hok
  simp only [ok_bind] at hok
  rw [hS] at hok
  simp only [ok_bind] at hok
  have hids1 : get_ids
      { s0 with axes_entity_counts := (aset s0.axes_entity_counts vi.entity_plural (first.count * S)) }
      vi.entity_plural = Except.ok ids := hids
  rw [hids1] at hok
  simp only [ok_bind] at hok
  obtain ⟨buf, hbuf⟩ := foldWrite_ok _ _ _ hok
  rw [hbuf]
  split
  · rfl
  · rfl

/-- `joinRep` of the empty list is empty. -/
theorem joinRep_nil (n : Nat) : joinRep n ([] : List α) = [] := by
  induction n <;> simp [joinRep, *]

/-- Members of `joinRep` are members of the base list. -/
theorem mem_of_mem_joinRep {x : α} : ∀ {n : Nat} {l : List α}, x ∈ joinRep n l → x ∈ l := by
  intro n
  induction n with
  | zero => intro l h; simp [joinRep] at h
  | succ m ih =>
    intro l h
    rw [joinRep, List.mem_append] at h
    rcases h with h | h
    · exact h
    · exact ih h

/-- The id adjustment of the single-group branch — a zip of the ids repeated
`n * S` times with the position range — coincides with the spec's reading:
the ids repeated `n` times, each suffixed by its flattened position. -/
theorem adjusted_ids_eq (ids : List String) (n : Nat) :
    List.zipWith (fun id ix => id ++ Nat.repr ix) (joinRep (n * ids.length) ids)
        (List.range (n * ids.length))
      = (joinRep n ids).enum.map (fun p => p.2 ++ Nat.repr p.1) := by
  rcases Nat.eq_zero_or_pos ids.length with h0 | hpos
  · have : ids = [] := List.length_eq_zero.mp h0
    subst this
    simp [joinRep_nil]
  · have hle : n * ids.length ≤ n * ids.length * ids.length :=
      Nat.le_mul_of_pos_right _ hpos
    apply List.ext_getElem
    · rw [List.length_zipWith, joinRep_length, List.length_range, List.length_map,
        List.enum_length, joinRep_length]
      omega
    · intro i h1 h2
      have hi : i < n * ids.length := by
        rw [List.length_map, List.enum_length, joinRep_length] at h2
        exact h2
      have b1 : i < (joinRep (n * ids.length) ids).length := by
        rw [joinRep_length]; omega
      have b2 : i < (joinRep n ids).length := by
        rw [joinRep_length]; exact hi
      rw [List.getElem_zipWith, List.getElem_range, List.getElem_map, List.getElem_enum]
      have g1 : (joinRep (n * ids.length) ids)[i]? = ids[i % ids.length]? :=
        joinRep_getElem? _ _ _ (by omega)
      have g2 : (joinRep n ids)[i]? = ids[i % ids.length]? :=
        joinRep_getElem? n ids i hi
      have heq : (joinRep (n * ids.length) ids)[i]? = (joinRep n ids)[i]? := g1.trans g2.symm
      rw [List.getElem?_eq_getElem b1, List.getElem?_eq_getElem b2] at heq
      rw [Option.some.inj heq]

/-- When all original ids have the same length, the suffixed ids are pairwise
distinct. -/
theorem adjusted_ids_nodup (ids : List String) (n L : Nat)
    (hL : ∀ x ∈ ids, x.length = L) :
    ((joinRep n ids).enum.map (fun p => p.2 ++ Nat.repr p.1)).Nodup := by
  have hnd : (joinRep n ids).enum.Nodup :=
    List.Nodup.of_map Prod.fst (by rw [List.enum_map_fst]; exact List.nodup_range _)
  refine List.Nodup.map_on ?_ hnd
  intro p hp q hq hpq
  obtain ⟨i, a⟩ := p
  obtain ⟨j, b⟩ := q
  rw [List.enum_eq_zip_range] at hp hq
  have ha : a ∈ joinRep n ids := (List.of_mem_zip hp).2
  have hb : b ∈ joinRep n ids := (List.of_mem_zip hq).2
  have hla : a.length = L := hL a (mem_of_mem_joinRep ha)
  have hlb : b.length = L := hL b (mem_of_mem_joinRep hb)
  obtain ⟨hab, hij⟩ := string_append_cancel (hla.trans hlb.symm) hpq
  have : i = j := Nat_repr_injective hij
  simp [this, hab]

/-- **C2 (amended).** In the single-group branch of `expand_axes`, the new id
sequence of the axis entity equals the original id sequence repeated
`first.count` times with every element suffixed by its flattened position
index; the resulting ids are pairwise distinct whenever the original ids all
have the same length.  (As stated for arbitrary strings the distinctness
claim fails — see the counterexample with ids `a`/`a1`.) -/
theorem expand_axes_parallel_ids (s sf : BuilderState) (first : Axis) (rest : List Axis)
    (vi : VarInfo) (ids : List String)
    (hax : s.axes = [first :: rest])
    (hvi : alook s.variable_entities first.name = some vi)
    (hS : get_count { s with axes_entity_counts := [] } vi.entity_plural
        = Except.ok ids.length)
    (hids : get_ids s vi.entity_plural = Except.ok ids)
    (hok : expand_axes s = Except.ok sf) :
    alook sf.axes_entity_ids vi.entity_plural
        = some ((joinRep first.count ids).enum.map (fun p => p.2 ++ Nat.repr p.1))
      ∧ ∀ L, (∀ x ∈ ids, x.length = L) →
          ((joinRep first.count ids).enum.map (fun p => p.2 ++ Nat.repr p.1)).Nodup := by
  have h0 : ({ s with axes_entity_counts := [] } : BuilderState).axes = [first :: rest] := hax
  unfold expand_axes at hok
  rw [h0] at hok
  have hok' : expandSingle { s with axes := [first :: rest], axes_entity_counts := [] }
      first (first :: rest) = Except.ok sf := hok
  have trace := @expandSingle_ids { s with axes := [first :: rest], axes_entity_counts := [] }
    sf first (first :: rest) vi ids.length ids hvi hS hids hok'
  constructor
  · rw [trace]
    have e : ({ s with axes := [first :: rest], axes_entity_counts := [] } :
        BuilderState).axes_entity_ids = s.axes_entity_ids := rfl
    rw [e, alook_aset_self, adjusted_ids_eq]
  · intro L hL
    exact adjusted_ids_nodup ids first.count L hL

/-- Witness for the amended C2 at a concrete state with equal-length ids
`aa`, `bb` and a 2-step axis: the adjusted ids are as claimed and pairwise
distinct. -/
theorem expand_axes_parallel_ids_witness :
    alook stateC2wExpanded.axes_entity_ids "persons"
        = some ((joinRep 2 ["aa", "bb"]).enum.map (fun p => p.2 ++ Nat.repr p.1))
      ∧ ((joinRep 2 ["aa", "bb"]).enum.map (fun p => p.2 ++ Nat.repr p.1)).Nodup := by
  have h := expand_axes_parallel_ids stateC2w stateC2wExpanded axisC2w [] ⟨"persons", 0⟩
    ["aa", "bb"] rfl rfl (by with_unfolding_all rfl) (by with_unfolding_all rfl)
    (by with_unfolding_all rfl)
  exact ⟨h.1, h.2 2 (by decide)⟩

/-- **C2 (counterexample).** With original ids `a`, `x`, `a1` (base size 3)
and a 5-step axis, the single-group branch succeeds but the adjusted id list
contains `a12` twice (`a1 ++ "2"` at position 2 and `a ++ "12"` at position
12): the ids are not pairwise distinct for every original id sequence. -/
theorem expand_axes_parallel_ids_duplicate :
    (expand_axes stateC2cex).map (fun sf => alook sf.axes_entity_ids "persons")
      = Except.ok (some ["a0", "x1", "a12", "a3", "x4", "a15", "a6", "x7", "a18",
          "a9", "x10", "a111", "a12", "x13", "a114"])
      ∧ ¬ (["a0", "x1", "a12", "a3", "x4", "a15", "a6", "x7", "a18",
          "a9", "x10", "a111", "a12", "x13", "a114"] : List String).Nodup := by
  constructor
  · with_unfolding_all rfl
  · decide

/-- `linspace` always has exactly `n` points. -/
theorem linspace_length (a b : Rat) (n : Nat) : (linspace a b n).length = n := by
  rw [linspace, List.length_map, List.length_range]

/-- The numpy slice `arr[idx::S]` of an array of length `n * S` has exactly
`n` positions when `idx < S`. -/
theorem countSlice_stride (n S idx : Nat) (h : idx < S) (hn : 0 < n) :
    countSlice (n * S) idx S = n := by
  have hSpos : 0 < S := by omega
  have hlt : idx < n * S := by
    calc idx < S := h
      _ ≤ n * S := Nat.le_mul_of_pos_left S hn
  unfold countSlice
  rw [if_pos hlt]
  have he : n * S - idx + S - 1 = (S - 1 - idx) + n * S := by omega
  rw [he, Nat.add_mul_div_right _ _ hSpos, Nat.div_eq_of_lt (by omega)]
  omega

/-- Reading back the pair just stored in the buffer. -/
theorem bufGet_buf_set_self (buf : Buffer) (v : String) (p : Option String) (arr : List Rat) :
    bufGet (buf_set buf v p arr) v p = some arr := by
  unfold bufGet buf_set
  cases h : alook buf v with
  | none =>
    rw [alook_aset_self]
    simp [alook, List.lookup]
  | some inner =>
    rw [alook_aset_self]
    simp [alook_aset_self]

/-- Storing under one variable does not change another variable's buffer
entries. -/
theorem bufGet_buf_set_ne (buf : Buffer) (v v' : String) (p p' : Option String)
    (arr : List Rat) (h : v ≠ v') :
    bufGet (buf_set buf v p arr) v' p' = bufGet buf v' p' := by
  have h' : ¬ (v' == v) = true := by
    simp only [beq_iff_eq]
    exact fun e => h e.symm
  unfold bufGet buf_set
  cases hh : alook buf v with
  | none => rw [alook_aset_ne _ _ _ _ h']
  | some inner => rw [alook_aset_ne _ _ _ _ h']

/-- Storing under one period does not change another period's entry of the
same variable. -/
theorem bufGet_buf_set_nep (buf : Buffer) (v : String) (p p' : Option String)
    (arr : List Rat) (h : p' ≠ p) :
    bufGet (buf_set buf v p arr) v p' = bufGet buf v p' := by
  have h' : ¬ (p' == p) = true := by
    simp only [beq_iff_eq]
    exact h
  unfold bufGet buf_set
  cases hh : alook buf v with
  | none =>
    simp only [alook_aset_self]
    simp [alook, List.lookup, h']
  | some inner =>
    simp only [alook_aset_self]
    exact alook_aset_ne _ _ _ _ h'

/-- Strided assignment preserves the array's length. -/
theorem sliceAssign_length (arr : List Rat) (idx step : Nat) (v : List Rat) :
    (sliceAssign arr idx step v).length = arr.length := by
  unfold sliceAssign
  exact List.length_mapIdx

/-- Pointwise reading of a strided assignment. -/
theorem sliceAssign_getElem (arr : List Rat) (idx step : Nat) (v : List Rat) (i : Nat) :
    (sliceAssign arr idx step v)[i]?
      = (arr[i]?).map (fun x => (sliceVal idx step v i).getD x) := by
  unfold sliceAssign
  rw [List.getElem?_mapIdx]

/-- Replaying strided writes preserves the array's length. -/
theorem replay_length (step n : Nat) : ∀ (L : List Axis) (x : List Rat),
    (replay step n L x).length = x.length := by
  intro L
  induction L with
  | nil =>
    intro x
    rfl
  | cons a L ih =>
    intro x
    have e : replay step n (a :: L) x
        = replay step n L (sliceAssign x (a.index.getD 0) step (linspace a.min a.max n)) := rfl
    rw [e, ih, sliceAssign_length]

/-- Pointwise reading of a replay: the last covering write wins; a position
no write covers keeps the base value. -/
theorem replay_getElem (step n : Nat) : ∀ (L : List Axis) (x : List Rat) (i : Nat),
    (replay step n L x)[i]? = (x[i]?).map (fun xv => (lastW step n i L).getD xv) := by
  intro L
  induction L with
  | nil =>
    intro x i
    show x[i]? = _
    cases x[i]? <;> rfl
  | cons a L ih =>
    intro x i
    have e : replay step n (a :: L) x
        = replay step n L (sliceAssign x (a.index.getD 0) step (linspace a.min a.max n)) := rfl
    rw [e, ih, sliceAssign_getElem, Option.map_map]
    cases hx : x[i]? with
    | none => rfl
    | some xv =>
      cases hl : lastW step n i L with
      | some v => simp [lastW, hl, Function.comp]
      | none => simp [lastW, hl, Function.comp]

/-- Replaying the same writes a second time changes nothing. -/
theorem replay_idem (step n : Nat) (L : List Axis) (x : List Rat) :
    replay step n L (replay step n L x) = replay step n L x := by
  apply List.ext_getElem?
  intro i
  rw [replay_getElem, replay_getElem]
  cases hx : x[i]? with
  | none => rfl
  | some xv =>
    cases hl : lastW step n i L with
    | some v => rfl
    | none => rfl

/-- Characterization of a successful fold of buffered axis writes: entries no
axis targets are untouched; a targeted entry holds the replay of its axes'
writes over the original entry (default-filled when absent). -/
theorem foldWrite_char (step cnt n : Nat) :
    ∀ (L : List Axis) (t t' : BuilderState),
      L.foldlM (writeAxis step cnt n) t = Except.ok t' →
      ∀ name p,
        bufGet t'.input_buffer name p =
          if relAxes t.default_period L name p = [] then bufGet t.input_buffer name p
          else some (replay step n (relAxes t.default_period L name p)
            ((bufGet t.input_buffer name p).getD
              (List.replicate cnt (dfltOf t.variable_entities name)))) := by
  intro L
  induction L with
  | nil =>
    intro t t' h name p
    rw [List.foldlM_nil] at h
    have hrel : relAxes t.default_period ([] : List Axis) name p = [] := rfl
    rw [← Except.ok.inj h, hrel, if_pos rfl]
  | cons a L ih =>
    intro t t' h name p
    rw [List.foldlM_cons] at h
    obtain ⟨t1, h1, h2⟩ := except_bind_ok h
    unfold writeAxis at h1
    cases hvi : alook t.variable_entities a.name with
    | none =>
      rw [hvi] at h1
      exact absurd h1 (by simp)
    | some vi =>
      rw [hvi] at h1
      simp only [ok_bind] at h1
      by_cases hg : countSlice ((get_input t a.name (axisPeriod t.default_period a)).getD
          (List.replicate cnt vi.default_value)).length
          (a.index.getD 0) step = (linspace a.min a.max n).length
      case neg =>
        rw [if_neg hg] at h1
        exact absurd h1 (by simp)
      case pos =>
        rw [if_pos hg] at h1
        have ht1 : t1 = { t with input_buffer := buf_set t.input_buffer a.name (axisPeriod t.default_period a) (sliceAssign ((get_input t a.name (axisPeriod t.default_period a)).getD (List.replicate cnt vi.default_value)) (a.index.getD 0) step (linspace a.min a.max n)) } := (Except.ok.inj h1).symm
      -- the fold tail read through the characterization of the head write
        have hchar := ih t1 t' h2 name p
        have hdp : t1.default_period = t.default_period := by rw [ht1]
        have hve : t1.variable_entities = t.variable_entities := by rw [ht1]
        rw [hdp, hve] at hchar
        have hfc : relAxes t.default_period (a :: L) name p
            = if (a.name == name && axisPeriod t.default_period a == p) = true
              then a :: relAxes t.default_period L name p
              else relAxes t.default_period L name p := by
          unfold relAxes
          rw [List.filter_cons]
        by_cases hr : (a.name == name && axisPeriod t.default_period a == p) = true
        · have hn : a.name = name := by
            have := (Bool.and_eq_true _ _).mp hr
            exact beq_iff_eq.mp this.1
          have hp : axisPeriod t.default_period a = p := by
            have := (Bool.and_eq_true _ _).mp hr
            exact beq_iff_eq.mp this.2
          have hb1 : bufGet t1.input_buffer name p
              = some (sliceAssign ((bufGet t.input_buffer name p).getD
                  (List.replicate cnt (dfltOf t.variable_entities name)))
                  (a.index.getD 0) step (linspace a.min a.max n)) := by
            have hd : vi.default_value = dfltOf t.variable_entities name := by
              unfold dfltOf
              rw [← hn, hvi]
              rfl
            rw [ht1]
            show bufGet (buf_set t.input_buffer a.name (axisPeriod t.default_period a) _) name p
              = _
            rw [hn, hp, bufGet_buf_set_self, hd]
            rfl
          cases hRl : relAxes t.default_period L name p with
          | nil =>
            rw [hRl, if_pos rfl] at hchar
            rw [hchar, hb1, hfc, if_pos hr, hRl, if_neg (by simp)]
            rfl
          | cons r rs =>
            rw [hRl, if_neg (by simp)] at hchar
            rw [hb1] at hchar
            rw [hchar, hfc, if_pos hr, hRl, if_neg (by simp)]
            rfl
        · have hb1 : bufGet t1.input_buffer name p = bufGet t.input_buffer name p := by
            rw [ht1]
            show bufGet (buf_set t.input_buffer a.name (axisPeriod t.default_period a) _) name p
              = _
            rw [Bool.and_eq_true] at hr
            push_neg at hr
            by_cases hn : a.name = name
            · have hp : ¬ axisPeriod t.default_period a = p := by
                intro hpe
                exact hr (beq_iff_eq.mpr hn) (beq_iff_eq.mpr hpe)
              rw [hn]
              exact bufGet_buf_set_nep _ _ _ _ _ (fun e => hp e.symm)
            · exact bufGet_buf_set_ne _ _ _ _ _ _ hn
          rw [hb1] at hchar
          rw [hfc, if_neg hr]
          exact hchar

/-- What a successful single-group expansion guarantees: the scalar state
fields are untouched, the axis entity's count is expanded to
`count * step size`, and every buffer entry is characterized by the replay
of the group's writes. -/
theorem expandSingle_char (s0 sf : BuilderState) (first : Axis) (group : List Axis)
    (h : expandSingle s0 first group = Except.ok sf) :
    ∃ vi S, alook s0.variable_entities first.name = some vi ∧
      get_count s0 vi.entity_plural = Except.ok S ∧
      sf.default_period = s0.default_period ∧
      sf.variable_entities = s0.variable_entities ∧
      sf.entity_counts = s0.entity_counts ∧
      sf.axes = s0.axes ∧
      sf.axes_entity_counts
        = aset s0.axes_entity_counts vi.entity_plural (first.count * S) ∧
      ∀ name p, bufGet sf.input_buffer name p =
        if relAxes s0.default_period group name p = [] then bufGet s0.input_buffer name p
        else some (replay S first.count (relAxes s0.default_period group name p)
          ((bufGet s0.input_buffer name p).getD
            (List.replicate (first.count * S) (dfltOf s0.variable_entities name)))) := by
  unfold expandSingle at h
  cases hvi : alook s0.variable_entities first.name with
  | none =>
    rw [hvi] at h
    exact absurd h (by simp)
  | some vi =>
    rw [hvi] at h
    simp only [ok_bind] at h
    cases hS : get_count s0 vi.entity_plural with
    | error e =>
      rw [hS] at h
      exact absurd h (by simp)
    | ok S =>
      rw [hS] at h
      simp only [ok_bind] at h
      refine ⟨vi, S, rfl, hS, ?_⟩
      cases hids : get_ids { s0 with axes_entity_counts := aset s0.axes_entity_counts vi.entity_plural (first.count * S) } vi.entity_plural with
      | error e =>
        rw [hids] at h
        exact absurd h (by simp)
      | ok ids =>
        rw [hids] at h
        simp only [ok_bind] at h
        split at h
        all_goals
          obtain ⟨buf, hbuf⟩ := foldWrite_ok _ _ _ h
          refine ⟨?_, ?_, ?_, ?_, ?_, ?_⟩
          case _ => rw [hbuf]
          case _ => rw [hbuf]
          case _ => rw [hbuf]
          case _ => rw [hbuf]
          case _ => rw [hbuf]
          case _ =>
            intro name p
            exact foldWrite_char S (first.count * S) first.count group _ sf h name p

/-- **C10.** `add_parallel_axis` performs no validation and cannot raise (the
axes list is never empty: it is initialized to `[[]]`): it just appends the
axis, whatever its count, entity or bounds.  And in the single-group branch
of `expand_axes` the first axis alone fixes the step count of the expansion:
for mismatched parallel axes — here with different counts, different
entities, no compatibility check anywhere — the run succeeds and each axis's
buffered array receives a linspace of the *first* axis's count between that
axis's own min and max, at its own slot. -/
theorem add_parallel_axis_no_validation :
    (∀ (s : BuilderState) (a : Axis) (g : List Axis) (gs : List (List Axis)),
        s.axes = g :: gs →
        add_parallel_axis s a = Except.ok { s with axes := (g ++ [a]) :: gs })
    ∧ ∀ (s sf : BuilderState) (a1 a2 : Axis) (vi1 vi2 : VarInfo) (S : Nat),
        s.axes = [[a1, a2]] →
        alook s.variable_entities a1.name = some vi1 →
        alook s.variable_entities a2.name = some vi2 →
        alook s.entity_counts vi1.entity_plural = some S →
        bufGet s.input_buffer a1.name (axisPeriod s.default_period a1) = none →
        bufGet s.input_buffer a2.name (axisPeriod s.default_period a2) = none →
        a1.name ≠ a2.name →
        a1.index.getD 0 < S →
        a2.index.getD 0 < S →
        0 < a1.count →
        expand_axes s = Except.ok sf →
        get_input sf a1.name (axisPeriod s.default_period a1)
            = some (sliceAssign (List.replicate (a1.count * S) vi1.default_value)
                (a1.index.getD 0) S (linspace a1.min a1.max a1.count))
          ∧ get_input sf a2.name (axisPeriod s.default_period a2)
            = some (sliceAssign (List.replicate (a1.count * S) vi2.default_value)
                (a2.index.getD 0) S (linspace a2.min a2.max a1.count)) := by
  constructor
  · intro s a g gs h
    unfold add_parallel_axis
    rw [h]
  · intro s sf a1 a2 vi1 vi2 S hax hv1 hv2 hSc hn1 hn2 hne hi1 hi2 hc1 hok
    have h0 : ({ s with axes_entity_counts := [] } : BuilderState).axes = [[a1, a2]] := hax
    unfold expand_axes at hok
    rw [h0] at hok
    have hok' : expandSingle { s with axes := [[a1, a2]], axes_entity_counts := [] }
        a1 [a1, a2] = Except.ok sf := hok
    have hSfull : get_count { s with axes := [[a1, a2]], axes_entity_counts := [] }
        vi1.entity_plural = Except.ok S := by
      unfold get_count
      rw [show alook ({ s with axes := [[a1, a2]], axes_entity_counts := [] } :
          BuilderState).axes_entity_counts vi1.entity_plural = (none : Option Nat) from rfl]
      rw [show alook ({ s with axes := [[a1, a2]], axes_entity_counts := [] } :
          BuilderState).entity_counts vi1.entity_plural = some S from hSc]
    unfold expandSingle at hok'
    rw [show alook ({ s with axes := [[a1, a2]], axes_entity_counts := [] } :
        BuilderState).variable_entities a1.name = some vi1 from hv1] at hok'
    simp only [ok_bind] at hok'
    rw [hSfull] at hok'
    simp only [ok_bind] at hok'
    obtain ⟨ids, hids, hok2⟩ := except_bind_ok hok'
    split at hok2 <;>
    · rw [List.foldlM_cons] at hok2
      obtain ⟨t1, hw1, hok3⟩ := except_bind_ok hok2
      unfold writeAxis at hw1
      simp only [] at hw1
      rw [hv1] at hw1
      simp only [ok_bind] at hw1
      unfold get_input at hw1
      simp only [] at hw1
      rw [hn1] at hw1
      simp only [Option.getD_none, List.length_replicate, linspace_length] at hw1
      rw [countSlice_stride a1.count S (a1.index.getD 0) hi1 hc1, if_pos rfl] at hw1
      have ht1 := Except.ok.inj hw1
      subst ht1
      rw [List.foldlM_cons] at hok3
      obtain ⟨t2, hw2, hfin⟩ := except_bind_ok hok3
      unfold writeAxis at hw2
      simp only [] at hw2
      rw [hv2] at hw2
      simp only [ok_bind] at hw2
      unfold get_input at hw2
      simp only [] at hw2
      rw [bufGet_buf_set_ne _ _ _ _ _ _ hne, hn2] at hw2
      simp only [Option.getD_none, List.length_replicate, linspace_length] at hw2
      rw [countSlice_stride a1.count S (a2.index.getD 0) hi2 hc1, if_pos rfl] at hw2
      have ht2 := Except.ok.inj hw2
      subst ht2
      rw [List.foldlM_nil] at hfin
      have hsf := Except.ok.inj hfin
      subst hsf
      constructor
      · unfold get_input
        simp only []
        rw [bufGet_buf_set_ne _ _ _ _ _ _ (fun e => hne e.symm)]
        rw [bufGet_buf_set_self]
      · unfold get_input
        simp only []
        rw [bufGet_buf_set_self]

/-- Witness for C10: adding the mismatched 7-step `rent` axis next to the
3-step `salary` axis succeeds without any check, `expand_axes` raises no
error, and both variables receive a 3-point spread at their slots. -/
theorem add_parallel_axis_no_validation_witness :
    add_parallel_axis stateC10pre axisC10b
        = Except.ok { stateC10pre with axes := [[axisC10a, axisC10b]] }
      ∧ get_input stateC10wExpanded "salary" (some "2024") = some [0, 0, 50, 0, 100, 0]
      ∧ get_input stateC10wExpanded "rent" (some "2025") = some [0, 0, 0, 30, 0, 60] := by
  obtain ⟨pa, pb⟩ := add_parallel_axis_no_validation
  have h := pb stateC10w stateC10wExpanded axisC10a axisC10b ⟨"persons", 0⟩ ⟨"households", 0⟩ 2
    rfl (by with_unfolding_all rfl) (by with_unfolding_all rfl) (by with_unfolding_all rfl)
    (by with_unfolding_all rfl) (by with_unfolding_all rfl) (by decide) (by decide) (by decide)
    (by decide) (by with_unfolding_all rfl)
  exact ⟨pa stateC10pre axisC10b [axisC10a] [] rfl,
    h.1.trans (by with_unfolding_all rfl),
    h.2.trans (by with_unfolding_all rfl)⟩

/-- Extracting the string pids of a role list that is all strings. -/
theorem pidsOf_map_str (ps : List String) : pidsOf (JVal.list (ps.map JVal.str)) = ps := by
  unfold pidsOf
  induction ps with
  | nil => rfl
  | cons p ps ih => simp only [List.map_cons, List.filterMap_cons] at ih ⊢; rw [ih]

/-- In a duplicate-free list, `findIdx?` locates the element at `i`. -/
theorem findIdx_nodup : ∀ (l : List String), l.Nodup → ∀ (i : Nat) (hi : i < l.length),
    l.findIdx? (fun x => x == l[i]) = some i := by
  intro l
  induction l with
  | nil => intro _ i hi; simp at hi
  | cons x rest ih =>
    intro hnd i hi
    match i with
    | 0 => simp [List.findIdx?_cons]
    | i + 1 =>
      have hi' : i < rest.length := by simpa using hi
      have hmem : rest[i] ∈ rest := List.getElem_mem hi'
      have hxne : (x == rest[i]) = false := by
        simp only [beq_eq_false_iff_ne]
        intro he
        exact (List.nodup_cons.mp hnd).1 (he ▸ hmem)
      rw [List.findIdx?_cons]
      simp only [List.getElem_cons_succ, hxne, Bool.false_eq_true, if_false]
      rw [List.findIdx?_succ, ih (List.nodup_cons.mp hnd).2 i hi']
      rfl

/-- What a successful role-list check guarantees: the list is all strings,
its pids are duplicate-free, declared among the persons, all still
unallocated, and the new working set is the old one minus those pids. -/
theorem checkRoleList_spec (ep iid rid : String) (persons_ids : List String) :
    ∀ (xs : List JVal) (k : Nat) (alloc0 alloc1 : List String), alloc0.Nodup →
      checkRoleList ep iid rid persons_ids k alloc0 xs = Except.ok alloc1 →
      ∃ ps : List String, xs = ps.map JVal.str ∧ ps.Nodup ∧
        (∀ p ∈ ps, p ∈ persons_ids ∧ p ∈ alloc0) ∧
        (∀ x, x ∈ alloc1 ↔ x ∈ alloc0 ∧ x ∉ ps) ∧ alloc1.Nodup := by
  intro xs
  induction xs with
  | nil =>
    intro k alloc0 alloc1 hnd h
    rw [checkRoleList] at h
    have := Except.ok.inj h
    subst this
    exact ⟨[], rfl, List.nodup_nil, by simp, by simp, hnd⟩
  | cons v vs ih =>
    intro k alloc0 alloc1 hnd h
    rw [checkRoleList.eq_def] at h
    cases v with
    | str pid =>
      simp only [] at h
      by_cases hp : pid ∈ persons_ids
      · rw [if_pos hp] at h
        by_cases ha : pid ∈ alloc0
        · rw [if_pos ha] at h
          obtain ⟨ps, hxs, hnd2, hmem, hiff, hnd1⟩ :=
            ih (k + 1) (alloc0.erase pid) alloc1 (hnd.erase pid) h
          refine ⟨pid :: ps, by rw [List.map_cons, hxs], ?_, ?_, ?_, hnd1⟩
          · rw [List.nodup_cons]
            refine ⟨?_, hnd2⟩
            intro hmem2
            have := (hmem pid hmem2).2
            rw [hnd.mem_erase_iff] at this
            exact this.1 rfl
          · intro p hpmem
            rcases List.mem_cons.mp hpmem with he | he
            · subst he
              exact ⟨hp, ha⟩
            · have h2 := hmem p he
              rw [hnd.mem_erase_iff] at h2
              exact ⟨h2.1, h2.2.2⟩
          · intro x
            rw [hiff x, hnd.mem_erase_iff]
            constructor
            · rintro ⟨⟨hxne, hxa⟩, hxps⟩
              exact ⟨hxa, by simp [hxne, hxps]⟩
            · rintro ⟨hxa, hxps⟩
              simp only [List.mem_cons, not_or] at hxps
              exact ⟨⟨hxps.1, hxa⟩, hxps.2⟩
        · rw [if_neg ha] at h
          exact absurd h (by simp)
      · rw [if_neg hp] at h
        exact absurd h (by simp)
    | int n => simp at h
    | list l => simp at h
    | dict m => simp at h
    | null => simp at h

/-- What a successful instance check guarantees: every role entry is a list
of strings, the instance's referenced pids are duplicate-free, declared and
unallocated, and the working set shrinks by exactly those pids. -/
theorem checkInstance_spec (ep iid : String) (persons_ids : List String) :
    ∀ (rj : List (String × JVal)) (alloc0 alloc1 : List String), alloc0.Nodup →
      checkInstance ep iid persons_ids alloc0 rj = Except.ok alloc1 →
      (∀ kv ∈ rj, ∃ ps : List String, kv.2 = JVal.list (ps.map JVal.str)) ∧
      (rj.flatMap (fun kv => pidsOf kv.2)).Nodup ∧
      (∀ p ∈ rj.flatMap (fun kv => pidsOf kv.2), p ∈ persons_ids ∧ p ∈ alloc0) ∧
      (∀ x, x ∈ alloc1 ↔ x ∈ alloc0 ∧ x ∉ rj.flatMap (fun kv => pidsOf kv.2)) ∧
      alloc1.Nodup := by
  intro rj
  induction rj with
  | nil =>
    intro alloc0 alloc1 hnd h
    rw [checkInstance] at h
    have := Except.ok.inj h
    subst this
    exact ⟨by simp, by simp, by simp, by simp, hnd⟩
  | cons rkv rest ih =>
    intro alloc0 alloc1 hnd h
    rw [checkInstance] at h
    obtain ⟨rk, rv⟩ := rkv
    cases hv : rv with
    | list xs =>
      subst hv
      simp only [] at h
      obtain ⟨allocm, h1, h2⟩ := except_bind_ok h
      obtain ⟨ps, hxs, hndp, hmem, hiff, hndm⟩ :=
        checkRoleList_spec ep iid rk persons_ids xs 0 alloc0 allocm hnd h1
      obtain ⟨hall, hndr, hmem2, hiff2, hnd1⟩ := ih allocm alloc1 hndm h2
      have hpids : pidsOf (JVal.list xs) = ps := by rw [hxs, pidsOf_map_str]
      refine ⟨?_, ?_, ?_, ?_, hnd1⟩
      · intro kv hkv
        rcases List.mem_cons.mp hkv with he | he
        · exact ⟨ps, by rw [he, hxs]⟩
        · exact hall kv he
      · rw [List.flatMap_cons, List.nodup_append]
        refine ⟨by rw [hpids]; exact hndp, hndr, ?_⟩
        intro p hp1 hp2
        rw [hpids] at hp1
        have := (hmem2 p hp2).2
        rw [hiff p] at this
        exact this.2 hp1
      · intro p hp
        rw [List.flatMap_cons, List.mem_append] at hp
        rcases hp with hp | hp
        · rw [hpids] at hp
          exact hmem p hp
        · have h3 := hmem2 p hp
          have h4 := (hiff p).mp h3.2
          exact ⟨h3.1, h4.1⟩
      · intro x
        rw [hiff2 x, hiff x, List.flatMap_cons, List.mem_append, hpids]
        constructor
        · rintro ⟨⟨hxa, hxp⟩, hxr⟩
          exact ⟨hxa, by simp [hxp, hxr]⟩
        · rintro ⟨hxa, hx⟩
          simp only [not_or] at hx
          exact ⟨⟨hxa, hx.1⟩, hx.2⟩
    | str a => subst hv; simp at h
    | int n => subst hv; simp at h
    | dict m => subst hv; simp at h
    | null => subst hv; simp at h

/-- The member loop of `iter_over_entity_members` yields exactly the listed
members in order (in its second components). -/
theorem iterMembers_snd (role : RoleDesc) :
    ∀ (xs : List JVal) (j : Nat) (ys : List (PRole × JVal)),
      iterMembers role j xs = Except.ok ys → ys.map Prod.snd = xs := by
  intro xs
  induction xs with
  | nil =>
    intro j ys h
    rw [iterMembers] at h
    rw [← Except.ok.inj h]
    rfl
  | cons x rest ih =>
    intro j ys h
    rw [iterMembers] at h
    by_cases hsub : role.subroles.isEmpty
    · rw [if_pos hsub] at h
      obtain ⟨ys2, h1, h2⟩ := except_bind_ok h
      rw [← Except.ok.inj h2, List.map_cons, ih (j + 1) ys2 h1]
    · rw [if_neg hsub] at h
      cases hg : role.subroles.get? j with
      | some sr =>
        rw [hg] at h
        obtain ⟨ys2, h1, h2⟩ := except_bind_ok h
        rw [← Except.ok.inj h2, List.map_cons, ih (j + 1) ys2 h1]
      | none =>
        rw [hg] at h
        simp at h

/-- Looking a role's name up in the role map built over a duplicate-free
role list returns that role's entry. -/
theorem alook_map_rname :
    ∀ (roles : List RoleDesc) (f : RoleDesc → JVal), (roles.map RoleDesc.rname).Nodup →
      ∀ r ∈ roles, alook (roles.map (fun r0 => (r0.rname, f r0))) r.rname = some (f r) := by
  intro roles
  induction roles with
  | nil => simp
  | cons r0 rest ih =>
    intro f hnd r hr
    rw [List.map_cons, List.nodup_cons] at hnd
    rcases List.mem_cons.mp hr with he | he
    · subst he
      simp [alook, List.lookup]
    · have hne : (r.rname == r0.rname) = false := by
        simp only [beq_eq_false_iff_ne]
        intro hee
        exact hnd.1 (hee ▸ List.mem_map_of_mem RoleDesc.rname he)
      show List.lookup r.rname ((r0.rname, f r0) :: rest.map (fun r0 => (r0.rname, f r0)))
          = some (f r)
      simp only [List.lookup, hne]
      exact ih f hnd.2 r he

/-- When every role entry is a list of strings, the member pairs yielded by
the role loop project (in their second components) to the per-role pid lists
in declaration order. -/
theorem iterRoles_snd_str (rj : List (String × JVal))
    (hall : ∀ kv ∈ rj, ∃ ps : List String, kv.2 = JVal.list (ps.map JVal.str)) :
    ∀ (roles : List RoleDesc) (ys : List (PRole × JVal)),
      iterRoles rj roles = Except.ok ys →
      ys.map Prod.snd = (roles.flatMap (fun role =>
        match alook rj role.rname with
        | some v => pidsOf v
        | none => [])).map JVal.str := by
  intro roles
  induction roles with
  | nil =>
    intro ys h
    rw [iterRoles] at h
    rw [← Except.ok.inj h]
    rfl
  | cons role rest ih =>
    intro ys h
    rw [iterRoles] at h
    rw [List.flatMap_cons, List.map_append]
    cases hl : alook rj role.rname with
    | none =>
      rw [hl] at h
      simp only [ok_bind] at h
      obtain ⟨ys2, h3, h4⟩ := except_bind_ok h
      rw [← Except.ok.inj h4, List.nil_append, ih ys2 h3]
      rfl
    | some v =>
      rw [hl] at h
      obtain ⟨ps, hps⟩ := hall (role.rname, v) (alook_mem hl)
      simp only [] at hps
      subst hps
      simp only [] at h ⊢
      by_cases hemp : ps.isEmpty
      · have hps0 : ps = [] := by
          cases ps
          · rfl
          · simp [List.isEmpty] at hemp
        subst hps0
        rw [show truthy (JVal.list (([] : List String).map JVal.str)) = false from rfl] at h
        simp only [Bool.false_eq_true, if_false, ok_bind] at h
        obtain ⟨ys2, h3, h4⟩ := except_bind_ok h
        rw [← Except.ok.inj h4, List.nil_append, ih ys2 h3]
        simp [pidsOf]
      · have htr : truthy (JVal.list (ps.map JVal.str)) = true := by
          cases ps
          · simp [List.isEmpty] at hemp
          · rfl
        rw [if_pos htr] at h
        obtain ⟨contrib, h1, h2⟩ := except_bind_ok h
        obtain ⟨ys2, h3, h4⟩ := except_bind_ok h2
        rw [← Except.ok.inj h4, List.map_append]
        rw [iterMembers_snd role (ps.map JVal.str) 0 contrib h1, pidsOf_map_str,
          ih ys2 h3]

/-- With duplicate-free role names, the instance's referenced pid list
(`instanceRefs`, in role-map order) equals the per-role-lookup pid list (in
role declaration order). -/
theorem flatMap_congr_mem :
    ∀ (l : List α) (f g : α → List β), (∀ a ∈ l, f a = g a) → l.flatMap f = l.flatMap g := by
  intro l f g
  induction l with
  | nil => intro _; rfl
  | cons a rest ih =>
    intro h
    rw [List.flatMap_cons, List.flatMap_cons, h a (by simp),
      ih (fun x hx => h x (by simp [hx]))]

theorem refs_eq_lookup_flat (entity : GroupEntity) (fields : List (String × JVal))
    (hrn : (entity.roles.map RoleDesc.rname).Nodup) :
    entity.roles.flatMap (fun role =>
        match alook (rolesJson entity fields) role.rname with
        | some v => pidsOf v
        | none => [])
      = (rolesJson entity fields).flatMap (fun kv => pidsOf kv.2) := by
  unfold rolesJson
  rw [List.flatMap_map]
  apply flatMap_congr_mem
  intro r hr
  rw [alook_map_rname entity.roles
    (fun r0 => transform_to_strict ((alook fields r0.rname).getD (JVal.list []))) hrn r hr]

/-- What a successful member write guarantees: array lengths are preserved,
written slots stay written, and every person listed among the written pids
has both its membership and its role slot filled. -/
theorem writeMembers_spec (persons_ids : List String) (hnd : persons_ids.Nodup) (eidx : Nat) :
    ∀ (ys : List (PRole × JVal)) (pids : List String) (ms : List (Option Nat))
      (rs : List (Option PRole)) (out : List (Option Nat) × List (Option PRole)),
      ys.map Prod.snd = pids.map JVal.str →
      writeMembers persons_ids eidx ys ms rs = Except.ok out →
      out.1.length = ms.length ∧ out.2.length = rs.length ∧
      (∀ i, i < ms.length → (ms[i]?.getD none).isSome → (out.1[i]?.getD none).isSome) ∧
      (∀ i, i < rs.length → (rs[i]?.getD none).isSome → (out.2[i]?.getD none).isSome) ∧
      (∀ i (hi : i < persons_ids.length), persons_ids[i] ∈ pids →
        i < ms.length → i < rs.length →
        (out.1[i]?.getD none).isSome ∧ (out.2[i]?.getD none).isSome) := by
  intro ys
  induction ys with
  | nil =>
    intro pids ms rs out hmap h
    rw [writeMembers] at h
    have hout := Except.ok.inj h
    have hpids : pids = [] := by
      cases pids
      · rfl
      · simp at hmap
    subst hpids
    rw [← hout]
    refine ⟨rfl, rfl, fun i _ hs => hs, fun i _ hs => hs, ?_⟩
    intro i hi hmem
    simp at hmem
  | cons y ys ih =>
    intro pids ms rs out hmap h
    cases pids with
    | nil => simp at hmap
    | cons pid pidrest =>
      simp only [List.map_cons, List.cons.injEq] at hmap
      rw [writeMembers] at h
      rw [hmap.1] at h
      simp only [] at h
      cases hf : persons_ids.findIdx? (fun x => x == pid) with
      | none => rw [hf] at h; simp at h
      | some pindex =>
        rw [hf] at h
        obtain ⟨l1, l2, hm, hr, hc⟩ :=
          ih pidrest (ms.set pindex (some eidx)) (rs.set pindex (some y.1)) out hmap.2 h
        rw [List.length_set] at l1
        rw [List.length_set] at l2
        have hmono1 : ∀ i, i < ms.length → (ms[i]?.getD none).isSome →
            (out.1[i]?.getD none).isSome := by
          intro i hilt hs
          refine hm i (by rw [List.length_set]; exact hilt) ?_
          rw [List.getElem?_set]
          by_cases hpe : pindex = i
          · simp [hpe, hilt]
          · simp only [hpe, if_false]
            exact hs
        have hmono2 : ∀ i, i < rs.length → (rs[i]?.getD none).isSome →
            (out.2[i]?.getD none).isSome := by
          intro i hilt hs
          refine hr i (by rw [List.length_set]; exact hilt) ?_
          rw [List.getElem?_set]
          by_cases hpe : pindex = i
          · simp [hpe, hilt]
          · simp only [hpe, if_false]
            exact hs
        refine ⟨l1, l2, hmono1, hmono2, ?_⟩
        intro i hi hmem h1 h2
        rcases List.mem_cons.mp hmem with he | he
        · -- persons_ids[i] = pid: the head write hit slot i
          have hfi : persons_ids.findIdx? (fun x => x == persons_ids[i]) = some i :=
            findIdx_nodup persons_ids hnd i hi
          rw [← he] at hf
          rw [hf] at hfi
          have hpi : pindex = i := Option.some.inj hfi
          subst hpi
          constructor
          · refine hm pindex (by rw [List.length_set]; exact h1) ?_
            rw [List.getElem?_set]
            simp [h1]
          · refine hr pindex (by rw [List.length_set]; exact h2) ?_
            rw [List.getElem?_set]
            simp [h2]
        · exact hc i hi he (by rw [List.length_set]; exact h1)
            (by rw [List.length_set]; exact h2)

/-- What processing one instance guarantees: its referenced pids are
duplicate-free, declared and unallocated; the working set shrinks by exactly
those pids; array lengths are preserved, written slots stay written, and
every referenced person's slots get written. -/
theorem processInstance_spec (persons_ids : List String) (entity : GroupEntity)
    (entity_ids : List String) (hnd : persons_ids.Nodup)
    (hrn : (entity.roles.map RoleDesc.rname).Nodup) :
    ∀ (iid : String) (obj : JVal) (alloc : List String) (ms : List (Option Nat))
      (rs : List (Option PRole)) (s : BuilderState)
      (out : List String × List (Option Nat) × List (Option PRole) × BuilderState),
      alloc.Nodup →
      processInstance persons_ids entity entity_ids (alloc, ms, rs, s) (iid, obj)
        = Except.ok out →
      (instanceRefs entity (iid, obj)).Nodup ∧
      (∀ p ∈ instanceRefs entity (iid, obj), p ∈ persons_ids ∧ p ∈ alloc) ∧
      (∀ x, x ∈ out.1 ↔ x ∈ alloc ∧ x ∉ instanceRefs entity (iid, obj)) ∧ out.1.Nodup ∧
      out.2.1.length = ms.length ∧ out.2.2.1.length = rs.length ∧
      (∀ i, i < ms.length → (ms[i]?.getD none).isSome → (out.2.1[i]?.getD none).isSome) ∧
      (∀ i, i < rs.length → (rs[i]?.getD none).isSome → (out.2.2.1[i]?.getD none).isSome) ∧
      (∀ i (hi : i < persons_ids.length), persons_ids[i] ∈ instanceRefs entity (iid, obj) →
        i < ms.length → i < rs.length →
        (out.2.1[i]?.getD none).isSome ∧ (out.2.2.1[i]?.getD none).isSome) := by
  intro iid obj alloc ms rs s out hand h
  unfold processInstance at h
  cases obj with
  | dict fields =>
    simp only [ok_bind] at h
    obtain ⟨alloc1, hchk, h2⟩ := except_bind_ok h
    obtain ⟨hall, hndrefs, hmemrefs, hiff, hnd1⟩ :=
      checkInstance_spec entity.plural iid persons_ids (rolesJson entity fields)
        alloc alloc1 hand hchk
    have hrefs : instanceRefs entity (iid, JVal.dict fields)
        = (rolesJson entity fields).flatMap (fun kv => pidsOf kv.2) := rfl
    cases hidx : entity_ids.findIdx? (fun x => x == iid) with
    | none => rw [hidx] at h2; simp at h2
    | some eidx =>
      rw [hidx] at h2
      simp only [ok_bind] at h2
      obtain ⟨ys, hiter, h3⟩ := except_bind_ok h2
      obtain ⟨mr, hwrite, h4⟩ := except_bind_ok h3
      obtain ⟨s1, hinit, h5⟩ := except_bind_ok h4
      have hout : (alloc1, mr.1, mr.2, s1) = out := Except.ok.inj h5
      have hsnd := iterRoles_snd_str (rolesJson entity fields) hall entity.roles ys hiter
      rw [refs_eq_lookup_flat entity fields hrn] at hsnd
      obtain ⟨l1, l2, hm, hr, hc⟩ := writeMembers_spec persons_ids hnd eidx ys
        ((rolesJson entity fields).flatMap (fun kv => pidsOf kv.2)) ms rs mr hsnd hwrite
      rw [← hout]
      exact ⟨hndrefs, hmemrefs, hiff, hnd1, l1, l2, hm, hr,
        fun i hi hmem hl1 hl2 => hc i hi hmem hl1 hl2⟩
  | str a => simp at h
  | int n => simp at h
  | list l => simp at h
  | null => simp at h

/-- What the instance-processing fold guarantees, accumulated over all
instances of the group kind. -/
theorem processList_spec (persons_ids : List String) (entity : GroupEntity)
    (entity_ids : List String) (hnd : persons_ids.Nodup)
    (hrn : (entity.roles.map RoleDesc.rname).Nodup) :
    ∀ (instances : List (String × JVal)) (alloc : List String) (ms : List (Option Nat))
      (rs : List (Option PRole)) (s : BuilderState)
      (out : List String × List (Option Nat) × List (Option PRole) × BuilderState),
      alloc.Nodup →
      instances.foldlM (processInstance persons_ids entity entity_ids) (alloc, ms, rs, s)
        = Except.ok out →
      (groupRefs entity instances).Nodup ∧
      (∀ p ∈ groupRefs entity instances, p ∈ persons_ids ∧ p ∈ alloc) ∧
      (∀ x, x ∈ out.1 ↔ x ∈ alloc ∧ x ∉ groupRefs entity instances) ∧ out.1.Nodup ∧
      out.2.1.length = ms.length ∧ out.2.2.1.length = rs.length ∧
      (∀ i, i < ms.length → (ms[i]?.getD none).isSome → (out.2.1[i]?.getD none).isSome) ∧
      (∀ i, i < rs.length → (rs[i]?.getD none).isSome → (out.2.2.1[i]?.getD none).isSome) ∧
      (∀ i (hi : i < persons_ids.length), persons_ids[i] ∈ groupRefs entity instances →
        i < ms.length → i < rs.length →
        (out.2.1[i]?.getD none).isSome ∧ (out.2.2.1[i]?.getD none).isSome) := by
  intro instances
  induction instances with
  | nil =>
    intro alloc ms rs s out hand h
    rw [List.foldlM_nil] at h
    have hout := Except.ok.inj h
    rw [← hout]
    refine ⟨by simp [groupRefs], by simp [groupRefs], ?_, hand, rfl, rfl,
      fun i _ hs => hs, fun i _ hs => hs, ?_⟩
    · intro x
      simp [groupRefs]
    · intro i hi hmem
      simp [groupRefs] at hmem
  | cons inst rest ih =>
    intro alloc ms rs s out hand h
    rw [List.foldlM_cons] at h
    obtain ⟨mid, h1, h2⟩ := except_bind_ok h
    obtain ⟨iid, obj⟩ := inst
    obtain ⟨mal, mms, mrs, msb⟩ := mid
    obtain ⟨nd1, mem1, iff1, ndal1, len1, len2, mono1, mono2, cov1⟩ :=
      processInstance_spec persons_ids entity entity_ids hnd hrn iid obj
        alloc ms rs s (mal, mms, mrs, msb) hand h1
    obtain ⟨nd2, mem2, iff2, ndal2, len3, len4, mono3, mono4, cov2⟩ :=
      ih mal mms mrs msb out ndal1 h2
    have hsplit : groupRefs entity ((iid, obj) :: rest)
        = instanceRefs entity (iid, obj) ++ groupRefs entity rest := by
      unfold groupRefs
      rw [List.flatMap_cons]
    rw [hsplit]
    refine ⟨?_, ?_, ?_, ndal2, len3.trans len1, len4.trans len2, ?_, ?_, ?_⟩
    · rw [List.nodup_append]
      refine ⟨nd1, nd2, ?_⟩
      intro p hp1 hp2
      have := (mem2 p hp2).2
      rw [iff1 p] at this
      exact this.2 hp1
    · intro p hp
      rw [List.mem_append] at hp
      rcases hp with hp | hp
      · exact mem1 p hp
      · have h3 := mem2 p hp
        have h4 := (iff1 p).mp h3.2
        exact ⟨h3.1, h4.1⟩
    · intro x
      rw [iff2 x, iff1 x, List.mem_append]
      constructor
      · rintro ⟨⟨hxa, hx1⟩, hx2⟩
        exact ⟨hxa, by simp [hx1, hx2]⟩
      · rintro ⟨hxa, hx⟩
        simp only [not_or] at hx
        exact ⟨⟨hxa, hx.1⟩, hx.2⟩
    · intro i hilt hs
      exact mono3 i (by rw [len1]; exact hilt) (mono1 i hilt hs)
    · intro i hilt hs
      exact mono4 i (by rw [len2]; exact hilt) (mono2 i hilt hs)
    · intro i hi hmem hl1 hl2
      rw [List.mem_append] at hmem
      rcases hmem with hmem | hmem
      · have hw := cov1 i hi hmem hl1 hl2
        exact ⟨mono3 i (by rw [len1]; exact hl1) hw.1, mono4 i (by rw [len2]; exact hl2) hw.2⟩
      · exact cov2 i hi hmem (by rw [len1]; exact hl1) (by rw [len2]; exact hl2)

/-- The period-size comparison used by the finalizer is transitive. -/
theorem key_le_trans : ∀ a b c : Period,
    (key_period_size a ≤ key_period_size b : Bool) →
    (key_period_size b ≤ key_period_size c : Bool) →
    (key_period_size a ≤ key_period_size c : Bool) := by
  intro a b c hab hbc
  simp only [decide_eq_true_eq] at *
  omega

/-- The period-size comparison used by the finalizer is total. -/
theorem key_le_total : ∀ a b : Period,
    ((key_period_size a ≤ key_period_size b : Bool)
      || (key_period_size b ≤ key_period_size a : Bool)) = true := by
  intro a b
  simp only [Bool.or_eq_true, decide_eq_true_eq]
  omega

/-- The commit list built for one variable carries exactly the sorted period
list in its first components. -/
theorem mapM_commit_fst (inner : List (Option String × List Rat)) :
    ∀ (ps : List Period) (cs : List (Period × List Rat)),
      ps.mapM (fun p =>
        match alook inner (some p.toStr) with
        | some arr => Except.ok (p, arr)
        | none => Except.error Err.keyError) = Except.ok cs →
      cs.map Prod.fst = ps := by
  intro ps
  induction ps with
  | nil =>
    intro cs h
    rw [List.mapM_nil] at h
    have := Except.ok.inj h
    rw [← this]
    rfl
  | cons p ps ih =>
    intro cs h
    rw [List.mapM_cons] at h
    obtain ⟨y, hy, h2⟩ := except_bind_ok h
    obtain ⟨ys, hys, h3⟩ := except_bind_ok h2
    have hcs : y :: ys = cs := Except.ok.inj h3
    cases halook : alook inner (some p.toStr) with
    | some arr =>
      rw [halook] at hy
      have hyv : (p, arr) = y := Except.ok.inj hy
      rw [← hcs, ← hyv, List.map_cons, ih ys hys]
    | none =>
      rw [halook] at hy
      exact absurd hy (by simp)

/-- What each element of the finalizer's commit accumulator satisfies: it
came from a buffer entry whose period keys parse to `pers`, and its commit
order is the stable merge sort of `pers` by period size. -/
theorem commit_fold_spec (s : BuilderState) (ep : String) :
    ∀ (buf : Buffer) (acc out : List (String × List (Period × List Rat))),
      buf.foldlM (commitVariable s ep) acc = Except.ok out →
      ∀ vc ∈ out, vc ∈ acc ∨
        ∃ inner pers, (vc.1, inner) ∈ buf ∧
          inner.mapM parseEntry = Except.ok pers ∧
          vc.2.map Prod.fst
            = pers.mergeSort (fun p q => key_period_size p ≤ key_period_size q) := by
  intro buf
  induction buf with
  | nil =>
    intro acc out h vc hvc
    rw [List.foldlM_nil] at h
    have := Except.ok.inj h
    subst this
    exact Or.inl hvc
  | cons vb rest ih =>
    intro acc out h vc hvc
    rw [List.foldlM_cons] at h
    obtain ⟨acc1, h1, h2⟩ := except_bind_ok h
    rcases ih acc1 out h2 vc hvc with hin | ⟨inner, pers, hmem, hp, hs⟩
    · unfold commitVariable at h1
      cases hv : alook s.variable_entities vb.1 with
      | none =>
        rw [hv] at h1
        have := Except.ok.inj h1
        subst this
        exact Or.inl hin
      | some vi =>
        rw [hv] at h1
        simp only [] at h1
        by_cases he : vi.entity_plural = ep
        · rw [if_pos he] at h1
          obtain ⟨pers, hpers, h3⟩ := except_bind_ok h1
          obtain ⟨cs, hcs, h4⟩ := except_bind_ok h3
          have hacc1 : acc ++ [(vb.1, cs)] = acc1 := Except.ok.inj h4
          rw [← hacc1] at hin
          rcases List.mem_append.mp hin with hin | hin
          · exact Or.inl hin
          · have hvceq : vc = (vb.1, cs) := by simpa using hin
            right
            refine ⟨vb.2, pers, ?_, hpers, ?_⟩
            · rw [hvceq]
              exact List.mem_cons_self vb rest
            · rw [hvceq]
              exact mapM_commit_fst vb.2 _ cs hcs
        · rw [if_neg he] at h1
          have := Except.ok.inj h1
          subst this
          exact Or.inl hin
    · exact Or.inr ⟨inner, pers, List.mem_cons_of_mem _ hmem, hp, hs⟩

/-- **C3.** For every variable whose holder resolves for the entity,
`finalize_variables_init` commits the variable's buffered periods in
ascending order of period size: the committed periods are exactly the parsed
buffer keys, and whenever one committed period is strictly smaller than
another (month before year), its commit position is strictly earlier. -/
theorem finalize_commits_ascending (s : BuilderState) (ep : String) (res : FinalizeResult)
    (hok : finalize_variables_init s ep = Except.ok res) :
    ∀ vc ∈ res.commits,
      (∃ inner pers, (vc.1, inner) ∈ s.input_buffer ∧
          inner.mapM parseEntry = Except.ok pers ∧ (vc.2.map Prod.fst).Perm pers)
        ∧ ∀ (i j : Nat) (hi : i < vc.2.length) (hj : j < vc.2.length),
            key_period_size (vc.2[i].1) < key_period_size (vc.2[j].1) → i < j := by
  have hcommon : ∃ commits, s.input_buffer.foldlM (commitVariable s ep) []
      = Except.ok commits ∧ res.commits = commits := by
    unfold finalize_variables_init at hok
    cases hc : alook s.entity_counts ep with
    | some n0 =>
      rw [hc] at hok
      simp only [] at hok
      obtain ⟨x1, _, hok1⟩ := except_bind_ok hok
      obtain ⟨x2, _, hok2⟩ := except_bind_ok hok1
      obtain ⟨commits, hfold, hres⟩ := except_bind_ok hok2
      exact ⟨commits, hfold, by rw [← Except.ok.inj hres]⟩
    | none =>
      rw [hc] at hok
      simp only [] at hok
      obtain ⟨x1, _, hok1⟩ := except_bind_ok hok
      obtain ⟨x2, _, hok2⟩ := except_bind_ok hok1
      obtain ⟨commits, hfold, hres⟩ := except_bind_ok hok2
      exact ⟨commits, hfold, by rw [← Except.ok.inj hres]⟩
  obtain ⟨commits, hfold, hrc⟩ := hcommon
  intro vc hvc
  rw [hrc] at hvc
  rcases commit_fold_spec s ep s.input_buffer [] commits hfold vc hvc with hin |
    ⟨inner, pers, hmem, hp, hs⟩
  · simp at hin
  · constructor
    · exact ⟨inner, pers, hmem, hp, by rw [hs]; exact List.mergeSort_perm pers _⟩
    · intro i j hi hj hlt
      have hsorted : (vc.2.map Prod.fst).Pairwise
          (fun p q => (key_period_size p ≤ key_period_size q : Bool)) := by
        rw [hs]
        exact List.sorted_mergeSort key_le_trans key_le_total pers
      by_contra hji
      push_neg at hji
      rcases Nat.lt_or_ge j i with hj2 | hj2
      · have hmi : i < (vc.2.map Prod.fst).length := by rw [List.length_map]; exact hi
        have hmj : j < (vc.2.map Prod.fst).length := by rw [List.length_map]; exact hj
        have := (List.pairwise_iff_getElem.mp hsorted) j i hmj hmi hj2
        simp only [List.getElem_map, decide_eq_true_eq] at this
        omega
      · have : i = j := by omega
        subst this
        omega

/-- Witness for C3: a buffer listing the 2024 entry before the 2024-01 entry
finalizes into a commit list with the month first; the ordering conclusion
applies non-vacuously at the two commit positions. -/
theorem finalize_commits_ascending_witness :
    (∃ inner pers, (("salary" : String), inner) ∈ stateC3w.input_buffer ∧
        inner.mapM parseEntry = Except.ok pers ∧
        (([(Period.month 2024 1, ([2] : List Rat)), (Period.year 2024, [1])].map
          Prod.fst).Perm pers))
      ∧ (0 : Nat) < 1 := by
  have h := finalize_commits_ascending stateC3w "persons" resC3w (by with_unfolding_all rfl)
    ("salary", [(Period.month 2024 1, [2]), (Period.year 2024, [1])])
    (by rw [show resC3w.commits
        = [("salary", [(Period.month 2024 1, [2]), (Period.year 2024, [1])])] from rfl]
        ; exact List.mem_cons_self _ _)
  exact ⟨h.1, h.2 0 1 (by decide) (by decide) (by decide)⟩

/-- **C4.** Two perpendicular axis groups of step counts 2 and 3 over base
populations of size 1: `expand_axes` sets both affected entity kinds' counts
to 6, and the six pairs of buffered values form a full factorial: they are a
permutation of the cartesian product of the first axis's 2 linearly spaced
values with the second axis's 3 linearly spaced values — every combination
exactly once. -/
theorem expand_axes_perpendicular_factorial :
    (expand_axes stateC4).map
        (fun s => (get_count s "foos", get_count s "bars",
          get_input s "a" (some "2024"), get_input s "b" (some "2024")))
      = Except.ok (Except.ok 6, Except.ok 6,
          some ([0, 10, 0, 10, 0, 10] : List Rat), some ([0, 0, 10, 10, 20, 20] : List Rat))
    ∧ (List.zip ([0, 10, 0, 10, 0, 10] : List Rat) ([0, 0, 10, 10, 20, 20] : List Rat)).Perm
        ((linspace 0 10 2).flatMap (fun x => (linspace 0 20 3).map (fun y => (x, y)))) := by
  constructor
  · with_unfolding_all rfl
  · exact of_decide_eq_true (by with_unfolding_all rfl)

/-- **C1.** Whenever `add_group_entity` succeeds (person ids and role names
duplicate-free), the group kind's membership and role arrays are indexed by
person position with length equal to the person count, every slot carries
exactly one (instance index, role) assignment, and the instances' role
lists reference every person id of the population exactly once: their
concatenation is a permutation of the person ids — no person omitted, none
assigned more than once. -/
theorem add_group_entity_allocation (persons_ids : List String) (entity : GroupEntity)
    (instances : List (String × JVal)) (s sf : BuilderState)
    (hnd : persons_ids.Nodup)
    (hrn : (entity.roles.map RoleDesc.rname).Nodup)
    (h : add_group_entity persons_ids entity (JVal.dict instances) s = Except.ok sf) :
    ∃ ms rs, alook sf.memberships entity.plural = some ms ∧
      alook sf.roles entity.plural = some rs ∧
      ms.length = persons_ids.length ∧ rs.length = persons_ids.length ∧
      (∀ i, i < persons_ids.length →
        (ms[i]?.getD none).isSome ∧ (rs[i]?.getD none).isSome) ∧
      (groupRefs entity instances).Perm persons_ids := by
  unfold add_group_entity at h
  simp only [ok_bind] at h
  obtain ⟨res, hfold, h2⟩ := except_bind_ok h
  obtain ⟨nd, mem, hiff, _, len1, len2, _, _, cov⟩ :=
    processList_spec persons_ids entity (instances.map Prod.fst) hnd hrn instances
      persons_ids (List.replicate persons_ids.length none)
      (List.replicate persons_ids.length none) _ res hnd hfold
  by_cases hempty : res.1.isEmpty = true
  · rw [if_pos hempty] at h2
    have hres1 : res.1 = [] := by simpa using hempty
    have hperm : (groupRefs entity instances).Perm persons_ids := by
      rw [List.perm_ext_iff_of_nodup nd hnd]
      intro a
      constructor
      · intro ha
        exact (mem a ha).1
      · intro ha
        by_contra hna
        have hin : a ∈ res.1 := (hiff a).mpr ⟨ha, hna⟩
        rw [hres1] at hin
        exact absurd hin (List.not_mem_nil a)
    have hsf := Except.ok.inj h2
    refine ⟨res.2.1, res.2.2.1, ?_, ?_, ?_, ?_, ?_, hperm⟩
    · rw [← hsf]
      exact alook_aset_self _ _ _
    · rw [← hsf]
      exact alook_aset_self _ _ _
    · rw [len1, List.length_replicate]
    · rw [len2, List.length_replicate]
    · intro i hi
      exact cov i hi (hperm.mem_iff.mpr (List.getElem_mem hi))
        (by rw [List.length_replicate]; exact hi)
        (by rw [List.length_replicate]; exact hi)
  · rw [if_neg hempty] at h2
    exact absurd h2 (by simp)

/-- C1 at a concrete input: two households exhausting the population
`a`, `b`, `c`. -/
theorem add_group_entity_allocation_witness :
    ∃ ms rs, alook sfC1.memberships entityC1.plural = some ms ∧
      alook sfC1.roles entityC1.plural = some rs ∧
      ms.length = personsC1.length ∧ rs.length = personsC1.length ∧
      (∀ i, i < personsC1.length →
        (ms[i]?.getD none).isSome ∧ (rs[i]?.getD none).isSome) ∧
      (groupRefs entityC1 instancesC1).Perm personsC1 :=
  add_group_entity_allocation personsC1 entityC1 instancesC1 stateC1 sfC1
    (by decide) (by decide) (by with_unfolding_all rfl)

/-- **C7 (counterexample).** `b` is in the person population and is never
referenced by any role list of `instancesC7dup`, yet `add_group_entity`
raises a duplicate-person error for `a` — not the structured
unallocated-persons error listing `b`: a duplicate (or unknown, or
ill-typed) reference in any instance preempts the leftover check. -/
theorem add_group_entity_unallocated_duplicate_preempts :
    "b" ∈ personsC7 ∧ "b" ∉ groupRefs entityC1 instancesC7dup ∧
    add_group_entity personsC7 entityC1 (JVal.dict instancesC7dup) stateC1
      = Except.error (Err.duplicatePerson ["households", "h1", "parents"] "a") :=
  ⟨by decide, by decide, by with_unfolding_all rfl⟩

/-- **C7 (amended).** When every instance of the group kind processes
without error (the instance fold succeeds), a person id of the population
never referenced by any role list makes `add_group_entity` return the
structured unallocated-persons error whose path names the group kind and
whose leftover list contains that person. -/
theorem add_group_entity_unallocated (persons_ids : List String) (entity : GroupEntity)
    (instances : List (String × JVal)) (s : BuilderState)
    (res : List String × List (Option Nat) × List (Option PRole) × BuilderState)
    (pid : String)
    (hnd : persons_ids.Nodup) (hrn : (entity.roles.map RoleDesc.rname).Nodup)
    (hfold : instances.foldlM (processInstance persons_ids entity (instances.map Prod.fst))
      (persons_ids, List.replicate persons_ids.length none,
       List.replicate persons_ids.length none,
       { s with entity_ids := aset s.entity_ids entity.plural (instances.map Prod.fst),
                entity_counts := aset s.entity_counts entity.plural (instances.map Prod.fst).length })
      = Except.ok res)
    (hp : pid ∈ persons_ids) (hnp : pid ∉ groupRefs entity instances) :
    ∃ leftover, add_group_entity persons_ids entity (JVal.dict instances) s
        = Except.error (Err.unallocatedPersons [entity.plural] leftover) ∧
      pid ∈ leftover := by
  obtain ⟨_, _, hiff, _, _, _, _, _, _⟩ :=
    processList_spec persons_ids entity (instances.map Prod.fst) hnd hrn instances
      persons_ids (List.replicate persons_ids.length none)
      (List.replicate persons_ids.length none) _ res hnd hfold
  have hpid : pid ∈ res.1 := (hiff pid).mpr ⟨hp, hnp⟩
  have hne : res.1.isEmpty = false := by
    cases hres : res.1 with
    | nil => rw [hres] at hpid; exact absurd hpid (List.not_mem_nil pid)
    | cons x xs => rfl
  refine ⟨res.1, ?_, hpid⟩
  unfold add_group_entity
  simp only [ok_bind]
  rw [hfold]
  simp [hne]
  intro hcon
  rw [hcon] at hpid
  exact absurd hpid (List.not_mem_nil pid)

/-- C7 at a concrete input: one household referencing only `a`; `b` is left
unallocated. -/
theorem add_group_entity_unallocated_witness :
    ∃ leftover, add_group_entity personsC7 entityC1 (JVal.dict instancesC7) stateC1
        = Except.error (Err.unallocatedPersons ["households"] leftover) ∧
      "b" ∈ leftover :=
  add_group_entity_unallocated personsC7 entityC1 instancesC7 stateC1 resC7 "b"
    (by decide) (by decide) (by with_unfolding_all rfl) (by decide) (by decide)

/-- **C6.** In the single-group branch, `expand_axes` is idempotent: running
it a second time on its own output (the axis list unchanged, and
`axes_entity_counts` reset at the start of each call) reports the same
population count for every entity kind and leaves every buffered input array
exactly as the first call left it. -/
theorem expand_axes_idempotent (s s1 s2 : BuilderState) (first : Axis) (rest : List Axis)
    (hax : s.axes = [first :: rest])
    (h1 : expand_axes s = Except.ok s1)
    (h2 : expand_axes s1 = Except.ok s2) :
    (∀ name, get_count s2 name = get_count s1 name) ∧
    (∀ v p, get_input s2 v p = get_input s1 v p) := by
  have h0 : ({ s with axes_entity_counts := [] } : BuilderState).axes = [first :: rest] := hax
  unfold expand_axes at h1
  rw [h0] at h1
  have h1s : expandSingle { s with axes := [first :: rest], axes_entity_counts := [] }
      first (first :: rest) = Except.ok s1 := h1
  obtain ⟨vi, S, hvi1, hS1, hdp1, hve1, hec1, haxes1, haec1, hbuf1⟩ :=
    expandSingle_char _ s1 first (first :: rest) h1s
  have hdp1s : s1.default_period = s.default_period := hdp1
  have hve1s : s1.variable_entities = s.variable_entities := hve1
  have hec1s : s1.entity_counts = s.entity_counts := hec1
  have haxes1s : s1.axes = [first :: rest] := haxes1
  have haec1s : s1.axes_entity_counts
      = aset ([] : List (String × Nat)) vi.entity_plural (first.count * S) := haec1
  have h20 : ({ s1 with axes_entity_counts := [] } : BuilderState).axes
      = [first :: rest] := haxes1s
  unfold expand_axes at h2
  rw [h20] at h2
  have h2s : expandSingle { s1 with axes := [first :: rest], axes_entity_counts := [] }
      first (first :: rest) = Except.ok s2 := h2
  obtain ⟨vi2, S2, hvi2, hS2, hdp2, hve2, hec2, haxes2, haec2, hbuf2⟩ :=
    expandSingle_char _ s2 first (first :: rest) h2s
  have hvi2s : alook s1.variable_entities first.name = some vi2 := hvi2
  rw [hve1s] at hvi2s
  have hvieq : vi2 = vi := Option.some.inj (hvi2s.symm.trans hvi1)
  subst hvieq
  -- the base count read in each pass comes from the unchanged entity_counts
  have gc1 : get_count { s with axes := [first :: rest], axes_entity_counts := [] }
        vi2.entity_plural
      = (match alook s.entity_counts vi2.entity_plural with
         | some c => Except.ok c
         | none => Except.error Err.keyError) := rfl
  rw [gc1] at hS1
  have gc2 : get_count { s1 with axes := [first :: rest], axes_entity_counts := [] }
        vi2.entity_plural
      = (match alook s1.entity_counts vi2.entity_plural with
         | some c => Except.ok c
         | none => Except.error Err.keyError) := rfl
  rw [gc2, hec1s] at hS2
  cases hq : alook s.entity_counts vi2.entity_plural with
  | none =>
    rw [hq] at hS1
    exact absurd hS1 (by simp)
  | some c =>
    rw [hq] at hS1 hS2
    have hcS : c = S := Except.ok.inj hS1
    have hcS2 : c = S2 := Except.ok.inj hS2
    have hSeq : S2 = S := hcS2.symm.trans hcS
    subst hSeq
    have hec2s : s2.entity_counts = s1.entity_counts := hec2
    have haec2s : s2.axes_entity_counts
        = aset ([] : List (String × Nat)) vi2.entity_plural (first.count * S2) := haec2
    constructor
    · intro name
      unfold get_count
      rw [hec2s, haec2s, haec1s]
    · have hbuf1s : ∀ v p, bufGet s1.input_buffer v p =
          if relAxes s.default_period (first :: rest) v p = [] then bufGet s.input_buffer v p
          else some (replay S2 first.count (relAxes s.default_period (first :: rest) v p)
            ((bufGet s.input_buffer v p).getD
              (List.replicate (first.count * S2) (dfltOf s.variable_entities v)))) :=
        fun v p => hbuf1 v p
      have hbuf2s : ∀ v p, bufGet s2.input_buffer v p =
          if relAxes s1.default_period (first :: rest) v p = [] then bufGet s1.input_buffer v p
          else some (replay S2 first.count (relAxes s1.default_period (first :: rest) v p)
            ((bufGet s1.input_buffer v p).getD
              (List.replicate (first.count * S2) (dfltOf s1.variable_entities v)))) :=
        fun v p => hbuf2 v p
      intro v p
      have e1 := hbuf1s v p
      have e2 := hbuf2s v p
      rw [hdp1s, hve1s] at e2
      show bufGet s2.input_buffer v p = bufGet s1.input_buffer v p
      cases hR : relAxes s.default_period (first :: rest) v p with
      | nil =>
        rw [hR, if_pos rfl] at e2
        exact e2
      | cons r rs =>
        rw [hR, if_neg (by simp)] at e1 e2
        rw [e1, Option.getD_some, replay_idem] at e2
        rw [e2, e1]

/-- C6 at a concrete state: one 3-step salary axis over one person; the
second expansion reproduces the first call's counts and buffer. -/
theorem expand_axes_idempotent_witness :
    (∀ name, get_count stateC6w2 name = get_count stateC6w1 name) ∧
    (∀ v p, get_input stateC6w2 v p = get_input stateC6w1 v p) :=
  expand_axes_idempotent stateC8 stateC6w1 stateC6w2
    ⟨"salary", 3, 0, 100, some "2024", some 0⟩ [] rfl
    (by with_unfolding_all rfl) (by with_unfolding_all rfl)

end OpenFisca
